import Mathlib

/-!
Verification development for the Pervade ebook-generation tool
(`pervade.py`).  The Python source is shallowly embedded: strings are
lists of characters, the regex substitutions of the source (all of which
use literal alternatives, lazy `.*?` / `.+?` gaps and literal closers)
are embedded as explicit scanning functions, fallible code (Python
exceptions: `IndexError`, `KeyError`, `ValueError`, `TypeError`) is
modelled with `Option`.  Fuel arguments make every scanner structurally
recursive; the fuel is always the length of the scanned string, which
bounds the number of non-overlapping matches, so the semantics agrees
with Python's left-to-right non-overlapping `re.sub`.
-/

set_option maxRecDepth 100000

/-- Python strings are modelled as lists of characters. -/
abbrev Str := List Char

/-- Coerce a Lean string literal to the model type. -/
def str (s : String) : Str := s.data

/-- Membership of a character in a literal character set, as Python's `in`. -/
def charIn (c : Char) (s : Str) : Bool := s.any (fun d => d == c)

/-- Python whitespace stripped by `str.strip()` (ASCII part). -/
def pySpace (c : Char) : Bool := charIn c (str " \t\n\r\x0b\x0c")

/-- Python `str.strip()`. -/
def pyStrip (s : Str) : Str :=
  ((s.dropWhile pySpace).reverse.dropWhile pySpace).reverse

/-- Python `str.lower()` (ASCII). -/
def pyLower (s : Str) : Str := s.map Char.toLower

/-- Python `str.upper()` (ASCII). -/
def pyUpper (s : Str) : Str := s.map Char.toUpper

/-- Digit test as written in the source: membership in `'1234567890'`. -/
def isPyDigit (c : Char) : Bool := charIn c (str "1234567890")

/-- Decimal rendering of a natural number, as `'%d' % n`. -/
def natStr (n : Nat) : Str := (Nat.repr n).data

/-- Boolean prefix test on character lists. -/
def isPre : Str → Str → Bool
  | [], _ => true
  | _ :: _, [] => false
  | a :: as, b :: bs => a == b && isPre as bs

/-- Python `str.find(c)`: index of the first occurrence of a character. -/
def pyFindChar (c : Char) : Str → Option Nat
  | [] => none
  | d :: rest => if d == c then some 0 else (pyFindChar c rest).map (· + 1)

/-- Split a string at the first occurrence of a character
    (`s.split(c, 1)`); when the character is absent the second component
    is `none`. -/
def splitFirst (c : Char) : Str → Str × Option Str
  | [] => ([], none)
  | d :: rest =>
    if d == c then ([], some rest)
    else
      let r := splitFirst c rest
      (d :: r.1, r.2)

/-- Python `re.split` on a single literal character. -/
def splitAllChar (c : Char) : Str → List Str
  | [] => [[]]
  | d :: rest =>
    let r := splitAllChar c rest
    if d == c then [] :: r
    else
      match r with
      | [] => [[d]]
      | h :: t => (d :: h) :: t

/-- Split a string at the first occurrence of any of the given literal
    patterns: returns the part before the match and the part after it.
    This is the leftmost-match step of `re.sub` with an ordered
    alternation of literals. -/
def findSplit (pats : List Str) : Str → Option (Str × Str × Str)
  | [] =>
    match pats.find? (fun p => isPre p []) with
    | some p => some ([], p, [])
    | none => none
  | c :: rest =>
    match pats.find? (fun p => isPre p (c :: rest)) with
    | some p => some ([], p, (c :: rest).drop p.length)
    | none =>
      match findSplit pats rest with
      | some (pre, p, suf) => some (c :: pre, p, suf)
      | none => none

/-- Whether any of the literal patterns occurs in the string. -/
def occursAny (pats : List Str) (s : Str) : Bool := (findSplit pats s).isSome

/-- Whether a single literal pattern occurs in the string. -/
def occurs (pat : Str) (s : Str) : Bool := occursAny [pat] s

/-- Fuelled core of `re.sub` with an ordered alternation of literal
    patterns and a literal replacement; scans left to right,
    non-overlapping, continuing after each replacement. -/
def replaceAltFuel (pats : List Str) (rep : Str) : Nat → Str → Str
  | 0, s => s
  | fuel + 1, s =>
    match findSplit pats s with
    | none => s
    | some (pre, p, suf) =>
      if p.isEmpty then s
      else pre ++ rep ++ replaceAltFuel pats rep fuel suf

/-- Python `re.sub('(lit1)|(lit2)|...', rep, s)` for literal alternatives. -/
def replaceAlt (pats : List Str) (rep : Str) (s : Str) : Str :=
  replaceAltFuel pats rep s.length s

/-- Python `re.sub(lit, rep, s)` for a single literal pattern. -/
def replaceAll (pat rep s : Str) : Str := replaceAlt [pat] rep s

example : replaceAll (str "<em>") (str "\\i ") (str "a<em>b<em>") =
    str "a\\i b\\i " := by decide

example : splitAllChar ':' (str "a:b:c") = [str "a", str "b", str "c"] := by decide

example : pyStrip (str "  a b\n") = str "a b" := by decide

/-- Find the leftmost occurrence of a literal pattern where all skipped
    characters are non-newline (the gap of a lazy `.*?` in a Python
    regex, whose `.` does not match a newline); returns the skipped gap
    and the suffix after the pattern. -/
def findLitNoNL (pat : Str) : Str → Option (Str × Str)
  | [] => if isPre pat [] then some ([], []) else none
  | c :: rest =>
    if isPre pat (c :: rest) then some ([], (c :: rest).drop pat.length)
    else if c == '\n' then none
    else (findLitNoNL pat rest).map (fun g => (c :: g.1, g.2))

/-- Fuelled core of `re.sub('((o1)|(o2)).*?(>)', '', s)`: each ordered
    literal alternative, once matched, is removed together with the lazy
    run up to the next `>`. -/
def stripTagsFuel (opens : List Str) : Nat → Str → Str
  | 0, s => s
  | _ + 1, [] => []
  | f + 1, c :: rest =>
    match opens.find? (fun p => isPre p (c :: rest)) with
    | some p =>
      match findLitNoNL (str ">") ((c :: rest).drop p.length) with
      | some g => stripTagsFuel opens f g.2
      | none => c :: stripTagsFuel opens f rest
    | none => c :: stripTagsFuel opens f rest

/-- Python `re.sub('((o1)|(o2)).*?(>)', '', s)` for literal alternatives. -/
def stripTags (opens : List Str) (s : Str) : Str := stripTagsFuel opens s.length s

/-- Fuelled core of `re.sub(opn + '.*?' + cls, '', s)` for literal
    delimiters: the delimiters and the delimited content are removed. -/
def removeDelimitedFuel (opn cls : Str) : Nat → Str → Str
  | 0, s => s
  | _ + 1, [] => []
  | f + 1, c :: rest =>
    if isPre opn (c :: rest) then
      match findLitNoNL cls ((c :: rest).drop opn.length) with
      | some g => removeDelimitedFuel opn cls f g.2
      | none => c :: removeDelimitedFuel opn cls f rest
    else c :: removeDelimitedFuel opn cls f rest

/-- Python `re.sub(opn + '(.*?)' + cls, '', s)` with the whole match
    (delimiters and content) removed. -/
def removeDelimited (opn cls : Str) (s : Str) : Str :=
  removeDelimitedFuel opn cls s.length s

/-- Fuelled core of `re.sub(opn + '(.*?)' + cls, rpre + '\1' + rpost, s)`
    for literal delimiters: the delimiters are rewritten, the content is
    kept. -/
def subSpanFuel (opn cls rpre rpost : Str) : Nat → Str → Str
  | 0, s => s
  | _ + 1, [] => []
  | f + 1, c :: rest =>
    if isPre opn (c :: rest) then
      match findLitNoNL cls ((c :: rest).drop opn.length) with
      | some g => rpre ++ g.1 ++ rpost ++ subSpanFuel opn cls rpre rpost f g.2
      | none => c :: subSpanFuel opn cls rpre rpost f rest
    else c :: subSpanFuel opn cls rpre rpost f rest

/-- Python `re.sub(opn + '(.*?)' + cls, rpre + '\1' + rpost, s)`. -/
def subSpan (opn cls rpre rpost : Str) (s : Str) : Str :=
  subSpanFuel opn cls rpre rpost s.length s

/-- Fuelled core of `re.sub('<span id=".+?">(.*?)</span>', '\1', s)`:
    the id is a lazy nonempty non-newline run up to `">`. -/
def subIdSpanFuel : Nat → Str → Str
  | 0, s => s
  | _ + 1, [] => []
  | f + 1, c :: rest =>
    if isPre (str "<span id=\x22") (c :: rest) then
      match (c :: rest).drop 10 with
      | [] => c :: subIdSpanFuel f rest
      | d :: r2 =>
        if d == '\n' then c :: subIdSpanFuel f rest
        else
          match findLitNoNL (str "\x22>") r2 with
          | some g =>
            match findLitNoNL (str "</span>") g.2 with
            | some g2 => g2.1 ++ subIdSpanFuel f g2.2
            | none => c :: subIdSpanFuel f rest
          | none => c :: subIdSpanFuel f rest
    else c :: subIdSpanFuel f rest

/-- Python `re.sub('<span id=".+?">(.*?)</span>', '\1', s)`. -/
def subIdSpan (s : Str) : Str := subIdSpanFuel s.length s

/-- Fuelled core of `re.sub(lead + '.+?' + cls, rep, s)`: the literal
    lead, a lazy nonempty non-newline run, then the literal closer, all
    replaced by `rep`. -/
def subLeadGapFuel (lead cls rep : Str) : Nat → Str → Str
  | 0, s => s
  | _ + 1, [] => []
  | f + 1, c :: rest =>
    if isPre lead (c :: rest) then
      match (c :: rest).drop lead.length with
      | [] => c :: subLeadGapFuel lead cls rep f rest
      | d :: r2 =>
        if d == '\n' then c :: subLeadGapFuel lead cls rep f rest
        else
          match findLitNoNL cls r2 with
          | some g => rep ++ subLeadGapFuel lead cls rep f g.2
          | none => c :: subLeadGapFuel lead cls rep f rest
    else c :: subLeadGapFuel lead cls rep f rest

/-- Python `re.sub(lead + '.+?' + cls, rep, s)`. -/
def subLeadGap (lead cls rep : Str) (s : Str) : Str :=
  subLeadGapFuel lead cls rep s.length s

/-- Fuelled core of `re.findall('&#(.+?);', s)`: each capture is the
    lazy nonempty non-newline run between a literal `&#` and the next
    `;`; matches are non-overlapping, scanning continues after the `;`. -/
def findRefsFuel : Nat → Str → List Str
  | 0, _ => []
  | _ + 1, [] => []
  | f + 1, c :: rest =>
    if isPre (str "&#") (c :: rest) then
      match (c :: rest).drop 2 with
      | [] => findRefsFuel f rest
      | d :: r2 =>
        if d == '\n' then findRefsFuel f rest
        else
          match findLitNoNL (str ";") r2 with
          | some g => (d :: g.1) :: findRefsFuel f g.2
          | none => findRefsFuel f rest
    else findRefsFuel f rest

/-- Python `re.findall('&#(.+?);', s)`. -/
def findRefs (s : Str) : List Str := findRefsFuel s.length s

/-- Number of positions at which a literal pattern matches
    (tail-recursive; for patterns that cannot overlap themselves this is
    the occurrence count). -/
def countOccAux (pat : Str) : Nat → Str → Nat
  | acc, [] => acc
  | acc, c :: rest =>
    if isPre pat (c :: rest) then countOccAux pat (acc + 1) rest
    else countOccAux pat acc rest

/-- Number of positions at which a literal pattern matches. -/
def countOcc (pat s : Str) : Nat := countOccAux pat 0 s

/-- Whether, scanning left to right, `p` matches strictly before the
    first match of `q` (false when `q` matches first or neither ever
    matches). -/
def precedes (p q : Str) : Str → Bool
  | [] => false
  | c :: rest =>
    if isPre q (c :: rest) then false
    else if isPre p (c :: rest) then true
    else precedes p q rest

/-- Whether a `>` occurs before any newline (the trailing `.*?>` of the
    CSS-search regex). -/
def hasGtNoNL : Str → Bool
  | [] => false
  | c :: rest => if c == '>' then true else if c == '\n' then false else hasGtNoNL rest

/-- Capture loop for `style="(.+?)".*?>`: accumulate a nonempty
    non-newline run; a `"` closes the capture only if a `>` follows
    before any newline, otherwise the lazy capture grows past it. -/
def capLoop (acc : Str) : Str → Option Str
  | [] => none
  | c :: rest =>
    if c == '\n' then none
    else if c == '\x22' && !acc.isEmpty && hasGtNoNL rest then some acc.reverse
    else capLoop (c :: acc) rest

/-- Scan for a `style="` occurrence (over a non-newline gap) whose
    capture completes; on failure the enclosing lazy gap grows one
    character. -/
def searchStyleOcc : Str → Option Str
  | [] => none
  | c :: rest =>
    if isPre (str "style=\x22") (c :: rest) then
      match capLoop [] ((c :: rest).drop 7) with
      | some cap => some cap
      | none => if c == '\n' then none else searchStyleOcc rest
    else if c == '\n' then none
    else searchStyleOcc rest

/-- Python `re.search('<p.+?style="(.+?)".*?>', s)`, returning the first
    capture group: leftmost `<p` whose lazy continuation finds a
    `style="`, a captured run up to a closing `"`, and a final `>`, all
    on one line. -/
def cssSearch : Str → Option Str
  | [] => none
  | c :: rest =>
    if isPre (str "<p") (c :: rest) then
      match (c :: rest).drop 2 with
      | [] => cssSearch rest
      | d :: r3 =>
        if d == '\n' then cssSearch rest
        else
          match searchStyleOcc r3 with
          | some cap => some cap
          | none => cssSearch rest
    else cssSearch rest

example : cssSearch (str "<p style=\x22text-align:right\x22>x</p>") =
    some (str "text-align:right") := by decide

example : cssSearch (str "<p>x</p>") = none := by decide

example : stripTags [str "<p", str "</p"] (str "<p class=\x22a\x22>x</p>") =
    str "x" := by decide

example : findRefs (str "a&#160;b&#65;") = [str "160", str "65"] := by decide

example : subLeadGap (str "Interlude") (str " ") (str "Interlude; ")
    (str "Interlude 3x (Bonus)") = str "Interlude; (Bonus)" := by decide

/-- Association-list insert-or-overwrite, modelling Python dict
    assignment: an existing key is overwritten in place, a new key is
    appended (dicts preserve insertion order). -/
def upsert {α β : Type} [DecidableEq α] : List (α × β) → α → β → List (α × β)
  | [], k, v => [(k, v)]
  | (k', v') :: rest, k, v =>
    if k' = k then (k, v) :: rest else (k', v') :: upsert rest k v

/-- Association-list lookup, modelling Python dict indexing / `in`. -/
def alookup {α β : Type} [DecidableEq α] : List (α × β) → α → Option β
  | [], _ => none
  | (k', v') :: rest, k => if k' = k then some v' else alookup rest k

/-- Python-style string repetition `s * n`. -/
def pyRepeat (s : Str) : Nat → Str
  | 0 => []
  | n + 1 => s ++ pyRepeat s n

/-- Value of `Typesetting.indent`. -/
def typesettingIndent : Nat := 360

/-- Value of `Typesetting.padding`. -/
def typesettingPadding : Nat := 1080

/-- Value of `RTF.line_prefix`. -/
def linePre : Str := str "\x7b\\pard\\sl360\\slmult1"

/-- Value of `RTF.line_suffix`. -/
def lineSuf : Str := str "\\par\x7d\n"

/-- The `RTF.special_substitutions` pass, applied in source order; each
    rule rewrites a `(open)(content)(close)` span triple.  The last rule
    matches `<span id=".+?">`. -/
def rtfSpecialSubs (s : Str) : Str :=
  let s := subSpan (str "<span style=\x22text-decoration:underline;\x22>")
    (str "</span>") (str "\\ul ") (str "\\ul0 ") s
  let s := subSpan (str "<span style=\x22color:#ffffff;\x22>") (str "</span>") [] [] s
  let s := subSpan (str "<span style=\x22font-style:inherit;line-height:1.625;\x22>")
    (str "</span>") [] [] s
  let s := subSpan
    (str "<span style=\x22font-size:15px;font-style:inherit;line-height:1.625;\x22>")
    (str "</span>") [] [] s
  let s := subSpan (str "<span style=\x22line-height:15px;\x22>") (str "</span>") [] [] s
  let s := subSpan
    (str "<span style=\x22color:#333333;font-style:normal;line-height:24px;\x22>")
    (str "</span>") [] [] s
  subIdSpan s

/-- The `RTF.substitutions` pass, applied in source order.  Replacement
    strings are given after Python's `re.sub` replacement-escape
    processing (`\\\\` becomes a backslash, `\\n` a newline). -/
def rtfSubs (s : Str) : Str :=
  let s := replaceAlt [str "<em>", str "<i>"] (str "\\i ") s
  let s := replaceAlt [str "</em>", str "</i>"] (str "\\i0 ") s
  let s := replaceAlt [str "<strong>", str "<b>"] (str "\\b ") s
  let s := replaceAlt [str "</strong>", str "</b>"] (str "\\b0 ") s
  let s := replaceAlt [str "<br/>", str "<br />", str "<br>"] (str "\\line\n") s
  let s := stripTags [str "<p", str "</p"] s
  let s := stripTags [str "<a", str "</a"] s
  let s := removeDelimited (str "<del>") (str "</del>") s
  let s := stripTags [str "<del", str "</del", str "<del/"] s
  let s := replaceAlt [str "<em/>", str "<i/>"] [] s
  replaceAlt [str "<strong/>", str "<b/>"] [] s

/-- The `RTF.character_substitutions` table: numeric character
    references and their literal or escape replacements, in source
    order. -/
def character_substitutions : List (Str × Str) := [
  (str "&#160;", str "\\~"),
  (str "&#199;", str "Ç"),
  (str "&#220;", str "Ü"),
  (str "&#224;", str "à"),
  (str "&#225;", str "á"),
  (str "&#227;", str "ã"),
  (str "&#228;", str "ä"),
  (str "&#232;", str "è"),
  (str "&#233;", str "é"),
  (str "&#234;", str "ê"),
  (str "&#235;", str "ë"),
  (str "&#236;", str "ì"),
  (str "&#237;", str "í"),
  (str "&#242;", str "ò"),
  (str "&#245;", str "õ"),
  (str "&#246;", str "ö"),
  (str "&#249;", str "ù"),
  (str "&#250;", str "ú"),
  (str "&#252;", str "ü"),
  (str "&#257;", str "ā"),
  (str "&#275;", str "ē"),
  (str "&#283;", str "ě"),
  (str "&#299;", str "ī"),
  (str "&#333;", str "ō"),
  (str "&#363;", str "ū"),
  (str "&#462;", str "ǎ"),
  (str "&#770;", str "̂"),
  (str "&#772;", str "̄"),
  (str "&#8211;", str "\\endash "),
  (str "&#8212;", str "\\emdash "),
  (str "&#8216;", str "\\lquote "),
  (str "&#8217;", str "\\rquote "),
  (str "&#8220;", str "\\ldblquote "),
  (str "&#8221;", str "\\rdblquote "),
  (str "&#8226;", str "•"),
  (str "&#8230;", str "..."),
  (str "&#9632;", str "■"),
  (str "&#9658;", str "►"),
  (str "&#9791;", str "☿"),
  (str "&#9830;", str "♦"),
  (str "&#128521;", str "😉"),
  (str "&#128550;", str "😦")]

/-- The character-substitution pass: every table entry applied in order. -/
def applyCharSubs (s : Str) : Str :=
  character_substitutions.foldl (fun t pr => replaceAll pr.1 pr.2 t) s

/-- Newline removal plus the special-span pass; this is the string on
    which the source tests `'<span' in output_string`. -/
def spanCheckString (input : Str) : Str :=
  rtfSpecialSubs (input.filter (fun c => c != '\n'))

/-- Diagnostic of line 424: an unprocessed `<span` remains after the
    special-substitution pass (reported, not fatal). -/
def hasUnprocessedSpan (input : Str) : Bool :=
  occurs (str "<span") (spanCheckString input)

/-- The intermediate `output_string` of `rich_textify` after newline
    removal and all three substitution passes. -/
def substitutedBody (input : Str) : Str :=
  applyCharSubs (rtfSubs (spanCheckString input))

/-- Diagnostic of line 441: character codes still unprocessed after the
    substitution passes (reported, not fatal). -/
def unknownCharCodes (input : Str) : List Str := findRefs (substitutedBody input)

/-- Normalization used by the boilerplate filter:
    `re.sub('[^a-z]', '', s.lower())`. -/
def normalizeLetters (s : Str) : Str :=
  (pyLower s).filter (fun c => decide ('a' ≤ c) && decide (c ≤ 'z'))

/-- The fixed list of normalized navigation-boilerplate strings of
    lines 433-438. -/
def navBoilerplateList : List Str :=
  [str "lastchapter",
   str "nextchapter",
   str "lastchapternextchapter",
   str "nextchapterlastchapter",
   str "lastchapternextchapterline",
   str "nextchapterlastchapterline"]

/-- The boilerplate test of line 433. -/
def isNavBoilerplate (s : Str) : Bool := decide (normalizeLetters s ∈ navBoilerplateList)

/-- CSS declaration-list parsing of lines 452-456: split on `;`, skip
    empty segments, split each on `:`; a nonempty segment without a `:`
    raises `IndexError` (`css_list[1]`), modelled as `none`; extra `:`
    parts are discarded; duplicate keys overwrite. -/
def cssParseStep (d : List (Str × Str)) (seg : Str) : Option (List (Str × Str)) :=
  if seg.isEmpty then some d
  else
    match splitAllChar ':' seg with
    | [] => none
    | [_] => none
    | k :: v :: _ => some (upsert d k v)

/-- Folding the declaration parser over all `;`-separated segments. -/
def cssParse (s : Str) : Option (List (Str × Str)) :=
  (splitAllChar ';' s).foldlM cssParseStep []

/-- Alignment control code derived from a parsed CSS dict
    (lines 461-467): `left` / `right` / anything else → center; nothing
    when no `text-align` key is present. -/
def cssAlign (d : List (Str × Str)) : Str :=
  match alookup d (str "text-align") with
  | none => []
  | some v =>
    if v = str "left" then str "\\ql"
    else if v = str "right" then str "\\qr"
    else str "\\qc"

/-- Padding control codes derived from a parsed CSS dict
    (lines 468-469). -/
def cssPad (d : List (Str × Str)) : Str :=
  if (alookup d (str "padding-left")).isSome then
    str "\\li" ++ natStr typesettingPadding ++ str "\\ri" ++ natStr typesettingPadding
  else []

/-- Typeface / font-size / space-after flags of line 471, emitted only
    when nonzero (`('\\f%d' % typeface) * (typeface != 0)` etc.). -/
def fontFlags (typeface fontSize spaceAfter : Nat) : Str :=
  (if typeface ≠ 0 then str "\\f" ++ natStr typeface else [])
    ++ (if fontSize ≠ 0 then str "\\fs" ++ natStr fontSize else [])
    ++ (if spaceAfter ≠ 0 then str "\\sa" ++ natStr spaceAfter else [])

/-- The paragraph-prefix control block of `rich_textify`
    (lines 448-472): without a CSS match, alignment and repeated indent
    come from the arguments; with a CSS match, alignment and padding
    come only from the parsed declarations (a parse failure is an
    exception); the font flags are appended in both branches. -/
def rtPrefixOf (input : Str) (typeface fontSize : Nat) (alignment : Str)
    (indent spaceAfter : Nat) : Option Str :=
  match cssSearch input with
  | none =>
    some (linePre ++ str "\\q" ++ alignment
      ++ pyRepeat (str "\\fi" ++ natStr typesettingIndent) indent
      ++ fontFlags typeface fontSize spaceAfter)
  | some cap =>
    (cssParse cap).map (fun d =>
      linePre ++ cssAlign d ++ cssPad d ++ fontFlags typeface fontSize spaceAfter)

/-- The leading-space step of line 446:
    `' ' * (output_string[0] != '\\') + output_string`; indexing an
    empty string raises `IndexError`, modelled as `none`. -/
def spacedBody : Str → Option Str
  | [] => none
  | c :: rest => some ((if c ≠ '\\' then [' '] else []) ++ c :: rest)

/-- The `rich_textify` function of lines 411-474, with the diagnostics
    elided (they never change the returned string) and exceptions
    modelled as `none`. -/
def richTextify (input : Str) (typeface fontSize : Nat) (alignment : Str)
    (indent spaceAfter : Nat) : Option Str :=
  let b := substitutedBody input
  if isNavBoilerplate b then some []
  else
    match spacedBody b, rtPrefixOf input typeface fontSize alignment indent spaceAfter with
    | some body, some pre => some (pre ++ body ++ lineSuf)
    | _, _ => none

/-- The default call `rich_textify(line)`: typeface 0, size 0, justified
    alignment, single indent, no space-after (`False` compares equal to
    `0`). -/
def richTextifyDefault (input : Str) : Option Str :=
  richTextify input 0 0 (str "j") 1 0

/-- Record for one entry of `RTF.per_chapter_formatting`. -/
structure FormattingOverride where
  typeface : Nat
  font_size : Nat
  alignment : Str
  indent : Nat
  space_after : Nat
deriving DecidableEq

/-- The `RTF.per_chapter_formatting` table: an entry for every arc 1-31,
    all empty except arc 19 chapter 9. -/
def per_chapter_formatting : List (Nat × List (Nat × FormattingOverride)) :=
  [(1, []), (2, []), (3, []), (4, []), (5, []), (6, []), (7, []), (8, []),
   (9, []), (10, []), (11, []), (12, []), (13, []), (14, []), (15, []),
   (16, []), (17, []), (18, []),
   (19, [(9, ⟨3, 28, str "l", 0, 360⟩)]),
   (20, []), (21, []), (22, []), (23, []), (24, []), (25, []), (26, []),
   (27, []), (28, []), (29, []), (30, []), (31, [])]

/-- Per-line conversion of `get_chapter` (lines 557-570): look up the
    per-chapter override table (a missing arc key raises `KeyError`);
    without an override call `rich_textify` with defaults, with one pass
    its five fields. -/
def convertLine (arcNumber chapterNumber : Nat) (line : Str) : Option Str :=
  match alookup per_chapter_formatting arcNumber with
  | none => none
  | some tbl =>
    match alookup tbl chapterNumber with
    | none => richTextifyDefault line
    | some f => richTextify line f.typeface f.font_size f.alignment f.indent f.space_after

example : richTextifyDefault (str "<p>Hello <em>world</em>.</p>") =
    some (str "\x7b\\pard\\sl360\\slmult1\\qj\\fi360 Hello \\i world\\i0 .\\par\x7d\n") := by
  decide

example : richTextifyDefault (str "<p></p>") = none := by decide

example : richTextifyDefault (str "<p>Next Chapter</p>") = some [] := by decide

example : convertLine 19 9 (str "<p style=\x22text-align:right\x22>x</p>") =
    some (str "\x7b\\pard\\sl360\\slmult1\\qr\\f3\\fs28\\sa360 x\\par\x7d\n") := by
  decide

example : convertLine 5 1 (str "<p style=\x22foo\x22>x</p>") = none := by decide

/-- Result of `urllib.parse.urlsplit`. -/
structure SplitUrl where
  scheme : Str
  netloc : Str
  path : Str
  query : Str
  fragment : Str
deriving DecidableEq

/-- Characters allowed in a URL scheme (`scheme_chars`). -/
def isSchemeChar (c : Char) : Bool := c.isAlpha || c.isDigit || charIn c (str "+-.")

/-- CPython `_splitnetloc`: the netloc extends to the earliest of
    `/`, `?`, `#`. -/
def splitNetloc : Str → Str × Str
  | [] => ([], [])
  | c :: rest =>
    if charIn c (str "/?#") then ([], c :: rest)
    else
      let r := splitNetloc rest
      (c :: r.1, r.2)

/-- CPython `urllib.parse.urlsplit` (string case, fragments allowed):
    strip unsafe bytes, detect a scheme (first char alphabetic, all
    scheme chars, before the first `:`), split off `//netloc`, then the
    fragment and the query.  A netloc with unbalanced `[`/`]` raises
    `ValueError`, modelled as `none`.  `_checknetloc` only raises for
    non-ASCII netlocs whose NFKC normalization introduces separators and
    is modelled as a no-op. -/
def urlsplitM (url0 : Str) : Option SplitUrl :=
  let url1 := url0.filter (fun c => !charIn c (str "\t\r\n"))
  let su :=
    match url1 with
    | c :: _ =>
      match pyFindChar ':' url1 with
      | some i =>
        if decide (0 < i) && c.isAlpha && (url1.take i).all isSchemeChar then
          (pyLower (url1.take i), url1.drop (i + 1))
        else ([], url1)
      | none => ([], url1)
    | [] => ([], url1)
  let nu :=
    if su.2.take 2 = str "//" then splitNetloc (su.2.drop 2) else ([], su.2)
  if (charIn '[' nu.1 && !charIn ']' nu.1) || (charIn ']' nu.1 && !charIn '[' nu.1) then
    none
  else
    let uf :=
      match splitFirst '#' nu.2 with
      | (a, some b) => (a, b)
      | (a, none) => (a, [])
    let uq :=
      match splitFirst '?' uf.1 with
      | (a, some b) => (a, b)
      | (a, none) => (a, [])
    some ⟨su.1, nu.1, uq.1, uq.2, uf.2⟩

/-- CPython `uses_netloc` (schemes reassembled with a `//` authority). -/
def usesNetloc : List Str :=
  [[], str "ftp", str "http", str "gopher", str "nntp", str "telnet",
   str "imap", str "wais", str "file", str "mms", str "https", str "shttp",
   str "snews", str "prospero", str "rtsp", str "rtspu", str "rsync",
   str "svn", str "svn+ssh", str "sftp", str "nfs", str "git", str "git+ssh",
   str "ws", str "wss"]

/-- CPython `urllib.parse.urlunsplit`. -/
def urlunsplit (u : SplitUrl) : Str :=
  let url := u.path
  let url :=
    if u.netloc ≠ [] ∨ (u.scheme ≠ [] ∧ u.scheme ∈ usesNetloc ∧ url.take 2 ≠ str "//")
    then
      str "//" ++ u.netloc ++
        (if url ≠ [] ∧ url.take 1 ≠ str "/" then '/' :: url else url)
    else url
  let url := if u.scheme ≠ [] then u.scheme ++ ':' :: url else url
  let url := if u.query ≠ [] then url ++ '?' :: u.query else url
  if u.fragment ≠ [] then url ++ '#' :: u.fragment else url

/-- UTF-8 encoding of one character (`str.encode('utf-8')`). -/
def utf8EncChar (c : Char) : List Nat :=
  let n := c.toNat
  if n < 0x80 then [n]
  else if n < 0x800 then [0xC0 + n / 0x40, 0x80 + n % 0x40]
  else if n < 0x10000 then
    [0xE0 + n / 0x1000, 0x80 + (n / 0x40) % 0x40, 0x80 + n % 0x40]
  else
    [0xF0 + n / 0x40000, 0x80 + (n / 0x1000) % 0x40, 0x80 + (n / 0x40) % 0x40,
     0x80 + n % 0x40]

/-- UTF-8 encoding of a string. -/
def utf8Bytes (s : Str) : List Nat := (s.map utf8EncChar).foldr (· ++ ·) []

/-- Uppercase hexadecimal digit. -/
def hexDigit (n : Nat) : Char :=
  if n < 10 then Char.ofNat ('0'.toNat + n) else Char.ofNat ('A'.toNat + n - 10)

/-- The byte values never percent-encoded in `iri_to_uri`'s calls to
    `quote`: CPython's `_ALWAYS_SAFE` plus the safe set
    `/;%[]=:$&()+,!?*@'~` passed at lines 256-264. -/
def quoteSafeBytes : List Nat :=
  (str "ABCDEFGHIJKLMNOPQRSTUVWXYZabcdefghijklmnopqrstuvwxyz0123456789_.-~/;%[]=:$&()+,!?*@\x27~").map
    Char.toNat

/-- Percent-encoding of one byte as `quote` performs it. -/
def pyQuoteByte (b : Nat) : Str :=
  if quoteSafeBytes.contains b then [Char.ofNat b]
  else ['%', hexDigit (b / 16), hexDigit (b % 16)]

/-- CPython `quote(s.encode('utf-8'), safe='/;%[]=:$&()+,!?*@\x27~')`. -/
def pyQuote (s : Str) : Str := ((utf8Bytes s).map pyQuoteByte).foldr (· ++ ·) []

/-- The `iri_to_uri` function of lines 242-272.  The port branch
    (`':' in authority`) computes `host.encode('idna') + ':%s' % port`,
    which concatenates `bytes` with `str` and raises `TypeError` on this
    Python-3 port, modelled as `none`; without a port the authority's
    utf-8 encode/decode round trip is the identity. -/
def iriToUri (iri : Str) : Option Str := do
  let u ← urlsplitM iri
  if charIn ':' u.netloc then none
  else
    some (urlunsplit ⟨u.scheme, u.netloc, pyQuote u.path, pyQuote u.query,
      pyQuote u.fragment⟩)

/-- URL resolution for a chapter link (lines 338-341): an href whose
    first four characters are `http` is passed to `iri_to_uri` as is,
    anything else first gets the literal prefix `https://`. -/
def resolveUrl (href : Str) : Option Str :=
  if href.take 4 = str "http" then iriToUri href
  else iriToUri (str "https://" ++ href)

example : resolveUrl (str "/x") = some (str "https:///x") := by decide

example : resolveUrl (str "http://h/a b") = some (str "http://h/a%20b") := by decide

example : resolveUrl (str "http://h:80/x") = none := by decide

example : resolveUrl (str "parahumans.wordpress.com/x") =
    some (str "https://parahumans.wordpress.com/x") := by decide

/-- One chapter entry of the index (`{'chapter': ..., 'url': ...}`). -/
structure ChapterEntry where
  chapter : Str
  url : Str
deriving DecidableEq

/-- One arc of the index: its title (`'arc'` key) and its integer-keyed
    chapter entries. -/
structure ArcData where
  arc : Str
  chapters : List (Nat × ChapterEntry)
deriving DecidableEq

/-- The index built by `get_index`: arc number to arc data. -/
abbrev Index := List (Nat × ArcData)

/-- One step of the heading pass of `get_index` (lines 284-299), over
    the state (arc counter, pending one-character prefix, index). -/
def headingStep (st : Nat × Str × Index) (heading : Str) : Nat × Str × Index :=
  match pyStrip heading with
  | [] => st
  | c :: hs =>
    let h := c :: hs
    if isPyDigit c then st
    else if st.2.1 ≠ [] then
      (st.1 + 1, [], upsert st.2.2 (st.1 + 1) ⟨st.2.1 ++ h, []⟩)
    else if h.length = 1 then (st.1, h, st.2.2)
    else if charIn '\n' h then
      (st.1 + 1, st.2.1,
        upsert st.2.2 (st.1 + 1) ⟨pyStrip (h.takeWhile (fun d => d != '\n')), []⟩)
    else if h.take 2 ≠ str "E." then
      (st.1 + 1, st.2.1, upsert st.2.2 (st.1 + 1) ⟨h, []⟩)
    else st

/-- The slice `chapter_text[0:chapter_text.find('.')]`: up to the first
    `.`, or all but the last character when there is no `.` (Python
    `find` returns `-1`). -/
def sliceToDot (s : Str) : Str :=
  match pyFindChar '.' s with
  | some i => s.take i
  | none => s.take (s.length - 1)

/-- Numeric value of a digit string. -/
def digitsToNat (s : Str) : Nat :=
  s.foldl (fun n c => n * 10 + (c.toNat - '0'.toNat)) 0

/-- Python `int(s)` restricted to the shapes reachable here (the first
    character is a digit): optional surrounding whitespace and a
    nonempty digit run; anything else raises `ValueError`, modelled as
    `none`. -/
def pyIntNat (s : Str) : Option Nat :=
  let t := pyStrip s
  if t ≠ [] ∧ t.all isPyDigit then some (digitsToNat t) else none

/-- Arc number derived from an accepted link text (lines 308-312): the
    leading numeral before the first `.` or the fixed sentinel 31 for
    the epilogue letter `E`; `none` when the text is not accepted or the
    numeral does not parse. -/
def parsedArc (t : Str) : Option Nat :=
  match t with
  | [] => none
  | c :: _ =>
    if charIn c (str "1234567890E") then
      if c ≠ 'E' then pyIntNat (sliceToDot t) else some 31
    else none

/-- Title normalization of lines 330-335:
    `replace('(Donation ', '(')` then
    `re.sub('Interlude.+? ', 'Interlude; ', ...)`. -/
def normalizeTitle (t : Str) : Str :=
  subLeadGap (str "Interlude") (str " ") (str "Interlude; ")
    (replaceAll (str "(Donation ") (str "(") t)

/-- The manually injected chapter of lines 321-326. -/
def e2entry : ChapterEntry :=
  ⟨str "E.2", str "https://parahumans.wordpress.com/2013/11/05/teneral-e-2/"⟩

/-- `index[a][c] = entry`: a `KeyError` (missing arc) is `none`; an
    existing chapter key is overwritten. -/
def setChapter (idx : Index) (a c : Nat) (e : ChapterEntry) : Option Index :=
  match alookup idx a with
  | none => none
  | some ad => some (upsert idx a ⟨ad.arc, upsert ad.chapters c e⟩)

/-- State of the link pass of `get_index`: the chapter counter, the
    previous link's arc number (initially the non-integer `''`, modelled
    as `none`), and the index. -/
structure LinkState where
  chapterNumber : Nat
  previousArc : Option Nat
  index : Index
deriving DecidableEq

/-- One step of the link pass of `get_index` (lines 304-341): skip
    non-accepted texts; derive the arc number; increment the chapter
    counter or reset it to 1 when the arc changed; inject the `E.2`
    entry when the sentinel arc's counter reaches 2; store the
    (optionally normalized) title and resolved URL.  The unused
    `chapters += chapter_text` accumulator of line 320 is dropped. -/
def linkStepCore (faithful : Bool) (st : LinkState) (href : Str) :
    Str → Option LinkState
  | [] => some st
  | c :: ts =>
    if charIn c (str "1234567890E") then
      match parsedArc (c :: ts) with
      | none => none
      | some arcN =>
        match (if arcN = 31 ∧ (if st.previousArc = some arcN then st.chapterNumber + 1 else 1) = 2 then
            (setChapter st.index 31 2 e2entry).map (fun idx2 => (3, idx2))
          else some (if st.previousArc = some arcN then st.chapterNumber + 1 else 1,
            st.index) : Option (Nat × Index)) with
        | none => none
        | some ci =>
          match resolveUrl href with
          | none => none
          | some url =>
            match setChapter ci.2 arcN ci.1
                ⟨if faithful then c :: ts else normalizeTitle (c :: ts), url⟩ with
            | none => none
            | some idx3 => some ⟨ci.1, some arcN, idx3⟩
    else some st

/-- One step of the link pass, dispatching on the stripped link text. -/
def linkStep (faithful : Bool) (st : LinkState) (link : Str × Str) :
    Option LinkState :=
  linkStepCore faithful st link.2 (pyStrip link.1)

/-- The `get_index` function of lines 275-343, over the heading texts
    and `(text, href)` link pairs extracted from the contents page (the
    page itself is an external collaborator). -/
def getIndex (headings : List Str) (links : List (Str × Str)) (faithful : Bool) :
    Option Index :=
  let h := headings.foldl headingStep (0, ([] : Str), ([] : Index))
  (links.foldlM (linkStep faithful) ⟨0, none, h.2.2⟩).map LinkState.index

example : getIndex [str "Aa"] [(str "1.1 t", str "http://h/x")] false =
    some [(1, ⟨str "Aa", [(1, ⟨str "1.1 t", str "http://h/x"⟩)]⟩)] := by decide

example : getIndex [str "Z", str "Arc"] [] false =
    some [(1, ⟨str "ZArc", []⟩)] := by decide

example : getIndex [str "T1\nsub"] [] false = some [(1, ⟨str "T1", []⟩)] := by decide

example : getIndex [str "E. x"] [] false = some [] := by decide

example : getIndex [str "Aa"] [(str "2.1 t", str "http://h/x")] false = none := by
  decide

example :
    getIndex (List.replicate 31 (str "Aa"))
      [(str "E.1 u", str "http://h/e1"), (str "E.3 v", str "http://h/e3")] false =
    some ((List.range' 1 30).map (fun i => (i, ⟨str "Aa", []⟩)) ++
      [(31, ⟨str "Aa",
        [(1, ⟨str "E.1 u", str "http://h/e1"⟩), (2, e2entry),
         (3, ⟨str "E.3 v", str "http://h/e3"⟩)]⟩)]) := by decide

example : normalizeTitle (str "10.x (Donation Bonus)") = str "10.x (Bonus)" := by
  decide

/-- Python `re.split` on an alternation of single literal characters. -/
def splitAnyChars (cs : Str) : Str → List Str
  | [] => [[]]
  | d :: rest =>
    let r := splitAnyChars cs rest
    if charIn d cs then [] :: r
    else
      match r with
      | [] => [[d]]
      | h :: t => (d :: h) :: t

/-- Chapter-title splitting of line 503:
    `[part.strip() for part in re.split('\(|;|:|\)', t) if part != '']`
    (the emptiness filter runs before stripping). -/
def chapterTitleParts (t : Str) : List Str :=
  ((splitAnyChars (str "(;:)") t).filter (fun p => p ≠ [])).map pyStrip

/-- The `generate_file_header` string of lines 348-367, with the
    `Typesetting` constants (primary size 28, margins 1620/1600/1440/1400,
    font table) expanded. -/
def generateFileHeader : Str :=
  str "\x7b\\rtf1\\deflang1033\\plain\\fs28\\widowctrl\\hyphauto\\ftnbj\n"
    ++ str "\\margt1620" ++ str "\\margb1600" ++ str "\\margl1440" ++ str "\\margr1400"
    ++ str "\n\x7b\\fonttbl "
    ++ str "\x7b\\f0 Times New Roman;\x7d"
    ++ str "\x7b\\f1 Helvetica;\x7d"
    ++ str "\x7b\\f2 Helvetica;\x7d"
    ++ str "\x7b\\f3 Courier;\x7d"
    ++ str "\x7b\\f4 Courier;\x7d"
    ++ str "\x7b\\f5 Courier;\x7d"
    ++ str "\x7b\\f6 Helvetica;\x7d"
    ++ str "\x7b\\f7 Courier;\x7d"
    ++ str "\x7b\\f8 Arial;\x7d"
    ++ str "\x7d\n"

/-- The `generate_cover_page` string of lines 370-408; the static asset
    files (cover art, inner cover) are external collaborators and are
    passed as the line sequences read from them. -/
def generateCoverPage (coverImageLines innerCoverLines : List Str)
    (arcTitle : Str) : Str :=
  str "\x7b\\header\\pard\\par\x7d\n"
    ++ str "\x7b\\footer\\pard\\par\x7d\n"
    ++ str "\\sectd"
    ++ str "\x7b\\pard\\sa0\\qc\\fs24\\line\\par\x7d\n"
    ++ str "\x7b\\pard\\sa0\\qc\\f6\\fs72\\b "
    ++ removeDelimited (str "(") (str ")") (pyUpper arcTitle)
    ++ str "\\b0\\par\x7d\n"
    ++ str "\x7b\\pard\\sa0\\qc\\fs24\\line\\line\\line\\line\\line\\par\x7d\n"
    ++ str "\x7b\\pard\\qc" ++ coverImageLines.foldr (· ++ ·) []
    ++ str "\\par\x7d\n"
    ++ str "\x7b\\pard\\sa0\\qc\\fs24\\line\\line\\line\\line\\line\\par\x7d\n"
    ++ str "\x7b\\pard\\sa120\\qc\\f7\\fs42\\b JOHN McCRAE\\b0\\par\x7d\n"
    ++ str "\x7b\\pard\\sa0\\qc\\f7\\fs28\\b WILDBOW\\b0\\page\\par\x7d\n"
    ++ (innerCoverLines.map (fun l =>
          str "\x7b\\pard\\qc\\f0\\fs24 " ++ pyStrip l ++ str "\\par\x7d\n")).foldr
        (· ++ ·) []

/-- Content of the right running header (lines 510-525), depending on
    the number of chapter-title parts; an empty part list reaches
    `parts[0]` in the else branch and raises `IndexError`. -/
def headerrContent (parts : List Str) : Option Str :=
  match parts with
  | [] => none
  | [p0] => some (pyUpper (str "Chapter " ++ p0))
  | [p0, p1] => some (pyUpper (p0 ++ str " (" ++ p1 ++ str ")"))
  | p0 :: p1 :: p2 :: _ =>
    some (pyUpper (p0 ++ str " (" ++ replaceAll (str "Donation ") [] p1
      ++ str "; " ++ p2 ++ str ")"))

/-- The chapter heading block of lines 534-554: one centered title line,
    or a title plus subtitle line, or a title plus combined
    `subtitle; credit` line. -/
def chapterHeadingBlock (parts : List Str) : Option Str :=
  match parts with
  | [] => none
  | [p0] => some (str "\x7b\\pard\\sa480\\qc\\f3\\fs56\\b " ++ p0 ++ str "\\b0\\par\x7d\n")
  | [p0, p1] =>
    some (str "\x7b\\pard\\sa120\\qc\\f3\\fs56\\b " ++ p0 ++ str "\\b0\\par\x7d\n"
      ++ str "\x7b\\pard\\sa480\\qc\\f3\\fs28\\b " ++ p1 ++ str "\\b0\\par\x7d\n")
  | p0 :: p1 :: p2 :: _ =>
    some (str "\x7b\\pard\\sa120\\qc\\f3\\fs56\\b " ++ p0 ++ str "\\b0\\par\x7d\n"
      ++ str "\x7b\\pard\\sa480\\qc\\f3\\fs28\\b " ++ p1 ++ str "; " ++ p2
      ++ str "\\b0\\par\x7d\n")

/-- Conversion of all body paragraphs of a chapter (lines 557-571). -/
def convertBody (arcN chN : Nat) : List Str → Option Str
  | [] => some []
  | l :: rest =>
    match convertLine arcN chN l, convertBody arcN chN rest with
    | some r, some rs => some (r ++ rs)
    | _, _ => none

/-- The end-of-arc block of lines 575-585 (only written for the last
    chapter of a joined arc). -/
def endOfArcBlock (arcN : Nat) : Str :=
  str "\x7b\\header\\pard\\par\x7d\n"
    ++ str "\x7b\\footer\\pard\\par\x7d\n"
    ++ str "\\sect\\sectd"
    ++ str "\x7b\\pard\\page\\par\x7d\n"
    ++ str "\x7b\\pard\\qc\\f5\\b END OF "
    ++ (if arcN ≠ 31 then str "ARC " ++ natStr arcN else str "WORM")
    ++ str "\\b0\\par\x7d\n\x7d"

/-- Inputs of one `get_chapter` call: the chapter's identity, its
    position signal (1 = first, 2 = last, 0 = middle), and the serialized
    paragraph elements fetched from the chapter page (external
    collaborator). -/
structure ChapterJob where
  chapterNumber : Nat
  chapterTitle : Str
  arcNumber : Nat
  arcTitle : Str
  position : Nat
  body : List Str
deriving DecidableEq

/-- The string appended to the arc's file by one `get_chapter` call in
    joined mode (lines 485-587): the file-naming step needs
    `arc_title[0]` and, for non-`E` titles, `arc_title.split(':')[1]`
    (an `IndexError` without a colon); position 1 writes the file header
    and cover page; every chapter writes its header/footer pair, a
    section break, the chapter heading, and the converted body;
    position 2 appends the end-of-arc block. -/
def getChapterJoined (coverImageLines innerCoverLines : List Str)
    (job : ChapterJob) : Option Str :=
  match job.arcTitle with
  | [] => none
  | a :: _ =>
    if a ≠ 'E' ∧ ¬ charIn ':' job.arcTitle then none
    else
      let parts := chapterTitleParts job.chapterTitle
      match headerrContent parts, chapterHeadingBlock parts,
          convertBody job.arcNumber job.chapterNumber job.body with
      | some hr, some hb, some body =>
        some ((if job.position = 1 then
            generateFileHeader
              ++ generateCoverPage coverImageLines innerCoverLines job.arcTitle
          else [])
          ++ str "\x7b\\headerl\\pard\\ql\\f1\\fs26\\line " ++ pyUpper job.arcTitle
          ++ str "\\par\x7d\n"
          ++ str "\x7b\\headerr\\pard\\qr\\f1\\fs26\\line " ++ hr ++ str "\\par\x7d\n"
          ++ str "\x7b\\headerf\\pard\\par\x7d\n"
          ++ str "\x7b\\footerl\\pard\\ql\\f2\\fs26\\line\\chpgn\\par\x7d\n"
          ++ str "\x7b\\footerr\\pard\\qr\\f2\\fs26\\line\\chpgn\\par\x7d\n"
          ++ str "\x7b\\footerf\\pard\\par\x7d\n"
          ++ str "\\sect\\sectd\n"
          ++ str "\x7b\\pard\\page\\par\x7d\n"
          ++ hb
          ++ body
          ++ (if job.position = 2 then endOfArcBlock job.arcNumber else []))
      | _, _, _ => none

/-- File contents after a sequence of joined-mode `get_chapter` calls:
    position 1 first removes the file (truncating the accumulated
    content), every call appends its output. -/
def runJoinedAux (ci ic : List Str) (acc : Str) : List ChapterJob → Option Str
  | [] => some acc
  | j :: rest =>
    match getChapterJoined ci ic j with
    | none => none
    | some out => runJoinedAux ci ic ((if j.position = 1 then [] else acc) ++ out) rest

/-- File contents produced by processing the given chapter jobs of one
    arc in joined mode. -/
def runJoined (ci ic : List Str) (jobs : List ChapterJob) : Option Str :=
  runJoinedAux ci ic [] jobs

/-- Position signal computed by `main` (lines 646-651). -/
def chapterPosition (sel : List Nat) (c : Nat) : Nat :=
  if sel.head? = some c then 1
  else if sel.getLast? = some c then 2
  else 0

/-- The inner chapter loop of `main` (lines 637-659) for one arc over an
    abstract per-chapter effect `getCh` (network fetch, file write,
    static-asset reads — external collaborators whose failures are
    Python exceptions).  Returns the chapters on which `get_chapter` was
    invoked and completed or failed, and the first uncaught exception:
    the source has no `try`/`except`, so an exception stops the loop. -/
def runChaptersAux (getCh : Nat → Nat → Nat → Except Str Unit) (arcN : Nat)
    (keys sel : List Nat) (done : List (Nat × Nat)) :
    List Nat → List (Nat × Nat) × Option Str
  | [] => (done, none)
  | c :: rest =>
    if keys.contains c then
      match getCh arcN c (chapterPosition sel c) with
      | .ok _ => runChaptersAux getCh arcN keys sel (done ++ [(arcN, c)]) rest
      | .error e => (done ++ [(arcN, c)], some e)
    else runChaptersAux getCh arcN keys sel done rest

/-- The arc loop of `main` (lines 625-659): each entry gives an arc, its
    chapter keys and its selected chapters; an uncaught exception
    propagates out of both loops. -/
def runBatchAux (getCh : Nat → Nat → Nat → Except Str Unit)
    (done : List (Nat × Nat)) :
    List (Nat × List Nat × List Nat) → List (Nat × Nat) × Option Str
  | [] => (done, none)
  | (a, keys, sel) :: rest =>
    match runChaptersAux getCh a keys sel done sel with
    | (d, none) => runBatchAux getCh d rest
    | (d, some e) => (d, some e)

/-- Batch processing of the selected arcs and chapters. -/
def runBatch (getCh : Nat → Nat → Nat → Except Str Unit)
    (arcs : List (Nat × List Nat × List Nat)) : List (Nat × Nat) × Option Str :=
  runBatchAux getCh [] arcs

example :
    (runJoined [str "ART"] [str "inner"]
      [⟨1, str "5.1", 5, str "Arc Five: Trial", 1, [str "<p>Alpha one</p>"]⟩]).isSome =
    true := by decide

/-!  Association-list lemmas used by the index invariants. -/

theorem alookup_upsert {β : Type} (l : List (Nat × β)) (k k' : Nat) (v : β) :
    alookup (upsert l k v) k' = if k = k' then some v else alookup l k' := by
  induction l with
  | nil => simp [upsert, alookup]
  | cons p rest ih =>
    obtain ⟨k0, v0⟩ := p
    by_cases h0 : k0 = k
    · subst h0
      by_cases h1 : k0 = k'
      · subst h1; simp [upsert, alookup]
      · simp [upsert, alookup, h1]
    · by_cases h1 : k0 = k'
      · subst h1
        have hk : k ≠ k0 := fun h => h0 h.symm
        simp [upsert, alookup, h0, hk]
      · simp [upsert, alookup, h0, h1, ih]

theorem upsert_map_fst_of_mem {β : Type} (l : List (Nat × β)) (k : Nat) (v : β)
    (h : (alookup l k).isSome) :
    (upsert l k v).map Prod.fst = l.map Prod.fst := by
  induction l with
  | nil => simp [alookup] at h
  | cons p rest ih =>
    obtain ⟨k0, v0⟩ := p
    by_cases h0 : k0 = k
    · subst h0; simp [upsert]
    · simp [alookup, h0] at h
      simp [upsert, h0, ih h]

theorem upsert_of_not_mem {β : Type} (l : List (Nat × β)) (k : Nat) (v : β)
    (h : alookup l k = none) :
    upsert l k v = l ++ [(k, v)] := by
  induction l with
  | nil => simp [upsert]
  | cons p rest ih =>
    obtain ⟨k0, v0⟩ := p
    by_cases h0 : k0 = k
    · simp [alookup, h0] at h
    · simp [alookup, h0] at h
      simp [upsert, h0, ih h]

theorem alookup_isSome_of_ranged {β : Type} (l : List (Nat × β)) (s k : Nat)
    (h : l.map Prod.fst = List.range' s l.length) :
    (alookup l k).isSome ↔ (s ≤ k ∧ k < s + l.length) := by
  induction l generalizing s with
  | nil => simp [alookup]
  | cons p rest ih =>
    obtain ⟨k0, v0⟩ := p
    simp only [List.map_cons, List.length_cons, List.range'_succ, List.cons.injEq] at h
    obtain ⟨hk0, hrest⟩ := h
    subst hk0
    by_cases h0 : k0 = k
    · have hl : alookup ((k0, v0) :: rest) k = some v0 := by simp [alookup, h0]
      rw [hl]
      simp only [Option.isSome_some, List.length_cons, true_iff]
      omega
    · have hl : alookup ((k0, v0) :: rest) k = alookup rest k := by simp [alookup, h0]
      rw [hl, ih (k0 + 1) hrest]
      simp only [List.length_cons]
      omega

theorem length_upsert_mem {β : Type} (l : List (Nat × β)) (k : Nat) (v : β)
    (h : (alookup l k).isSome) : (upsert l k v).length = l.length := by
  have := upsert_map_fst_of_mem l k v h
  have h1 : ((upsert l k v).map Prod.fst).length = (l.map Prod.fst).length := by rw [this]
  simpa using h1

theorem upsert_ranged {β : Type} (l : List (Nat × β)) (s k : Nat) (v : β)
    (h : l.map Prod.fst = List.range' s l.length)
    (h1 : s ≤ k) (h2 : k ≤ s + l.length) :
    (upsert l k v).map Prod.fst = List.range' s (upsert l k v).length ∧
      l.length ≤ (upsert l k v).length ∧
      (k < s + (upsert l k v).length) := by
  by_cases hc : k < s + l.length
  · have hs : (alookup l k).isSome := by
      rw [alookup_isSome_of_ranged l s k h]; exact ⟨h1, hc⟩
    have hlen := length_upsert_mem l k v hs
    rw [hlen, upsert_map_fst_of_mem l k v hs, h]
    exact ⟨rfl, le_refl _, hc⟩
  · have hk : k = s + l.length := by omega
    have hn : alookup l k = none := by
      cases ho : alookup l k with
      | none => rfl
      | some w =>
        have : (alookup l k).isSome := by rw [ho]; rfl
        rw [alookup_isSome_of_ranged l s k h] at this
        omega
    rw [upsert_of_not_mem l k v hn]
    constructor
    · simp only [List.map_append, List.length_append, List.map_cons, List.map_nil,
        List.length_cons, List.length_nil]
      rw [h, hk]
      have := @List.range'_concat 1 s l.length
      simp only [one_mul] at this
      rw [← this]
    · simp; omega

/-- Arc keys of the index are exactly `1, 2, ..., n` in order. -/
def ArcsRanged (idx : Index) : Prop :=
  idx.map Prod.fst = List.range' 1 idx.length

/-- Chapter keys of every arc are exactly `1, 2, ..., m` in order. -/
def ChaptersRanged (idx : Index) : Prop :=
  ∀ a ad, alookup idx a = some ad →
    ad.chapters.map Prod.fst = List.range' 1 ad.chapters.length

/-- Slot 2 of the sentinel arc 31 can only ever hold the manually
    injected `E.2` entry. -/
def SentinelSlot2 (idx : Index) : Prop :=
  ∀ ad, alookup idx 31 = some ad →
    ∀ e, alookup ad.chapters 2 = some e → e = e2entry

/-- Invariant of the heading pass: keys ranged, the counter equals the
    index size, all chapter maps still empty. -/
def HeadingInv (st : Nat × Str × Index) : Prop :=
  ArcsRanged st.2.2 ∧ st.1 = st.2.2.length ∧
    (∀ a ad, alookup st.2.2 a = some ad → ad.chapters = [])

theorem alookup_fresh_none (idx : Index) (h1 : ArcsRanged idx) :
    alookup idx (idx.length + 1) = none := by
  cases ho : alookup idx (idx.length + 1) with
  | none => rfl
  | some w =>
    have hs : (alookup idx (idx.length + 1)).isSome := by rw [ho]; rfl
    rw [alookup_isSome_of_ranged idx 1 _ h1] at hs
    omega

theorem upsert_fresh_ranged (idx : Index) (ad : ArcData) (h1 : ArcsRanged idx) :
    ArcsRanged (upsert idx (idx.length + 1) ad) ∧
      (upsert idx (idx.length + 1) ad).length = idx.length + 1 := by
  rw [upsert_of_not_mem _ _ _ (alookup_fresh_none idx h1)]
  unfold ArcsRanged at h1 ⊢
  constructor
  · simp only [List.map_append, List.length_append, List.map_cons, List.map_nil,
      List.length_cons, List.length_nil]
    rw [h1]
    have hc := @List.range'_concat 1 1 idx.length
    simp only [one_mul] at hc
    have : 1 + idx.length = idx.length + 1 := by omega
    rw [this] at hc
    rw [← hc]
  · simp

theorem headingStep_inv (st : Nat × Str × Index) (heading : Str)
    (h : HeadingInv st) : HeadingInv (headingStep st heading) := by
  obtain ⟨n, pre, idx⟩ := st
  obtain ⟨h1, h2, h3⟩ := h
  simp only at h1 h2 h3
  subst h2
  have fresh : ∀ ad : ArcData, ad.chapters = [] →
      HeadingInv (idx.length + 1, [], upsert idx (idx.length + 1) ad) ∧
      HeadingInv (idx.length + 1, pre, upsert idx (idx.length + 1) ad) := by
    intro ad had
    have hr := upsert_fresh_ranged idx ad h1
    have h3' : ∀ a ad', alookup (upsert idx (idx.length + 1) ad) a = some ad' →
        ad'.chapters = [] := by
      intro a ad' hl
      rw [alookup_upsert] at hl
      by_cases hcase : idx.length + 1 = a
      · rw [if_pos hcase] at hl
        cases hl; exact had
      · rw [if_neg hcase] at hl
        exact h3 a ad' hl
    exact ⟨⟨hr.1, hr.2.symm, h3'⟩, ⟨hr.1, hr.2.symm, h3'⟩⟩
  unfold headingStep
  cases hps : pyStrip heading with
  | nil => exact ⟨h1, rfl, h3⟩
  | cons c hs =>
    simp only
    split_ifs with hd hp hl hn he
    · exact ⟨h1, rfl, h3⟩
    · exact (fresh _ rfl).1
    · exact ⟨h1, rfl, h3⟩
    · exact (fresh _ rfl).2
    · exact (fresh _ rfl).2
    · exact ⟨h1, rfl, h3⟩

theorem headingFold_inv (headings : List Str) (st : Nat × Str × Index)
    (h : HeadingInv st) : HeadingInv (headings.foldl headingStep st) := by
  induction headings generalizing st with
  | nil => exact h
  | cons hd tl ih => exact ih _ (headingStep_inv st hd h)

theorem setChapter_eq (idx idx' : Index) (a c : Nat) (e : ChapterEntry)
    (h : setChapter idx a c e = some idx') :
    ∃ ad, alookup idx a = some ad ∧
      idx' = upsert idx a ⟨ad.arc, upsert ad.chapters c e⟩ := by
  unfold setChapter at h
  cases ho : alookup idx a with
  | none => rw [ho] at h; simp at h
  | some ad =>
    rw [ho] at h
    simp only [Option.some.injEq] at h
    exact ⟨ad, rfl, h.symm⟩

theorem setChapter_ranged (idx : Index) (a c : Nat) (e : ChapterEntry) (ad : ArcData)
    (ho : alookup idx a = some ad)
    (hA : ArcsRanged idx) (hC : ChaptersRanged idx)
    (hc1 : 1 ≤ c) (hc2 : c ≤ ad.chapters.length + 1) :
    ArcsRanged (upsert idx a ⟨ad.arc, upsert ad.chapters c e⟩) ∧
      ChaptersRanged (upsert idx a ⟨ad.arc, upsert ad.chapters c e⟩) ∧
      alookup (upsert idx a ⟨ad.arc, upsert ad.chapters c e⟩) a =
        some ⟨ad.arc, upsert ad.chapters c e⟩ ∧
      (∀ b, b ≠ a → alookup (upsert idx a ⟨ad.arc, upsert ad.chapters c e⟩) b =
        alookup idx b) ∧
      c ≤ (upsert ad.chapters c e).length := by
  have hsome : (alookup idx a).isSome := by rw [ho]; rfl
  have hchr := hC a ad ho
  have hur := upsert_ranged ad.chapters 1 c e hchr hc1 (by omega)
  refine ⟨?_, ?_, ?_, ?_, ?_⟩
  · unfold ArcsRanged at hA ⊢
    rw [upsert_map_fst_of_mem idx a _ hsome, length_upsert_mem idx a _ hsome]
    exact hA
  · intro b ad' hl
    rw [alookup_upsert] at hl
    by_cases hab : a = b
    · rw [if_pos hab] at hl
      cases hl
      exact hur.1
    · rw [if_neg hab] at hl
      exact hC b ad' hl
  · rw [alookup_upsert, if_pos rfl]
  · intro b hb
    rw [alookup_upsert, if_neg (fun hh => hb hh.symm)]
  · omega

/-- Invariant of the link pass: ranged arc keys, ranged chapter keys,
    the sentinel-slot property, and the chapter counter bounded by the
    previous arc's chapter count. -/
def LinkInv (st : LinkState) : Prop :=
  ArcsRanged st.index ∧ ChaptersRanged st.index ∧ SentinelSlot2 st.index ∧
    (∀ a, st.previousArc = some a →
      ∃ ad, alookup st.index a = some ad ∧ 1 ≤ st.chapterNumber ∧
        st.chapterNumber ≤ ad.chapters.length)

theorem linkStep_inv (f : Bool) (st st' : LinkState) (l : Str × Str)
    (h : linkStep f st l = some st') (hinv : LinkInv st) : LinkInv st' := by
  obtain ⟨hA, hC, hS, hP⟩ := hinv
  unfold linkStep at h
  cases hps : pyStrip l.1 with
  | nil =>
    rw [hps] at h
    simp only [linkStepCore, Option.some.injEq] at h
    exact h ▸ ⟨hA, hC, hS, hP⟩
  | cons c ts =>
    rw [hps] at h
    simp only [linkStepCore] at h
    by_cases hc : charIn c (str "1234567890E") = true
    · rw [if_pos hc] at h
      cases hpa : parsedArc (c :: ts) with
      | none => rw [hpa] at h; exact absurd h (by simp)
      | some arcN =>
        rw [hpa] at h
        dsimp only at h
        by_cases hE : arcN = 31 ∧
            (if st.previousArc = some arcN then st.chapterNumber + 1 else 1) = 2
        · rw [if_pos hE] at h
          obtain ⟨h31, hch2⟩ := hE
          have hprev : st.previousArc = some arcN ∧ st.chapterNumber = 1 := by
            by_cases hp : st.previousArc = some arcN
            · rw [if_pos hp] at hch2; exact ⟨hp, by omega⟩
            · rw [if_neg hp] at hch2; omega
          cases hs2 : setChapter st.index 31 2 e2entry with
          | none => rw [hs2] at h; exact absurd h (by simp)
          | some idx2 =>
            rw [hs2] at h
            dsimp only [Option.map] at h
            cases hru : resolveUrl l.2 with
            | none => rw [hru] at h; exact absurd h (by simp)
            | some url =>
              rw [hru] at h
              dsimp only at h
              cases hs3 : setChapter idx2 arcN 3
                  ⟨if f then c :: ts else normalizeTitle (c :: ts), url⟩ with
              | none => rw [hs3] at h; exact absurd h (by simp)
              | some idx3 =>
                rw [hs3] at h
                simp only [Option.some.injEq] at h
                subst h
                -- the E.2 injection
                obtain ⟨ad, ho, hidx2⟩ := setChapter_eq _ _ _ _ _ hs2
                obtain ⟨ad0, ho0, _, hlen0⟩ := hP 31 (h31 ▸ hprev.1)
                have had : ad0 = ad := by
                  rw [ho0] at ho; exact (Option.some.injEq .. ▸ ho)
                have hlen : 1 ≤ ad.chapters.length := by
                  rw [← had]; omega
                have hr2 := setChapter_ranged st.index 31 2 e2entry ad ho hA hC
                  (by omega) (by omega)
                rw [← hidx2] at hr2
                have hS2 : SentinelSlot2 idx2 := by
                  intro ad' hl' e he
                  rw [hr2.2.2.1] at hl'
                  cases hl'
                  rw [alookup_upsert, if_pos rfl] at he
                  cases he
                  rfl
                -- the regular insertion at chapter 3
                obtain ⟨ad2, ho2, hidx3⟩ := setChapter_eq _ _ _ _ _ hs3
                have had2 : ad2 = ⟨ad.arc, upsert ad.chapters 2 e2entry⟩ := by
                  rw [h31] at ho2
                  rw [hr2.2.2.1] at ho2
                  exact (Option.some_inj.mp ho2).symm
                have hlen2 : 2 ≤ ad2.chapters.length := by
                  rw [had2]; exact hr2.2.2.2.2
                have hr3 := setChapter_ranged idx2 arcN 3
                  ⟨if f then c :: ts else normalizeTitle (c :: ts), url⟩ ad2 ho2
                  hr2.1 hr2.2.1 (by omega) (by omega)
                rw [← hidx3] at hr3
                refine ⟨hr3.1, hr3.2.1, ?_, ?_⟩
                · intro ad' hl' e he
                  rw [h31] at hr3
                  rw [hr3.2.2.1] at hl'
                  cases hl'
                  rw [alookup_upsert, if_neg (by omega)] at he
                  rw [had2] at he
                  dsimp only at he
                  rw [alookup_upsert, if_pos rfl] at he
                  cases he
                  rfl
                · intro a ha
                  simp only [Option.some.injEq] at ha
                  subst ha
                  exact ⟨_, hr3.2.2.1, (by omega : (1 : Nat) ≤ 3), hr3.2.2.2.2⟩
        · rw [if_neg hE] at h
          dsimp only at h
          cases hru : resolveUrl l.2 with
          | none => rw [hru] at h; exact absurd h (by simp)
          | some url =>
            rw [hru] at h
            dsimp only at h
            cases hs3 : setChapter st.index arcN
                (if st.previousArc = some arcN then st.chapterNumber + 1 else 1)
                ⟨if f then c :: ts else normalizeTitle (c :: ts), url⟩ with
            | none => rw [hs3] at h; exact absurd h (by simp)
            | some idx3 =>
              rw [hs3] at h
              simp only [Option.some.injEq] at h
              subst h
              obtain ⟨ad, ho, hidx3⟩ := setChapter_eq _ _ _ _ _ hs3
              have hchb : 1 ≤ (if st.previousArc = some arcN then st.chapterNumber + 1 else 1) ∧
                  (if st.previousArc = some arcN then st.chapterNumber + 1 else 1) ≤
                    ad.chapters.length + 1 := by
                by_cases hp : st.previousArc = some arcN
                · rw [if_pos hp]
                  obtain ⟨ad0, ho0, hc1, hc2⟩ := hP arcN hp
                  have had : ad0 = ad := by
                    rw [ho0] at ho; exact (Option.some.injEq .. ▸ ho)
                  rw [← had]
                  omega
                · rw [if_neg hp]; omega
              have hr3 := setChapter_ranged st.index arcN
                (if st.previousArc = some arcN then st.chapterNumber + 1 else 1)
                ⟨if f then c :: ts else normalizeTitle (c :: ts), url⟩ ad ho hA hC
                hchb.1 hchb.2
              rw [← hidx3] at hr3
              refine ⟨hr3.1, hr3.2.1, ?_, ?_⟩
              · intro ad' hl' e he
                by_cases h31 : arcN = 31
                · subst h31
                  rw [hr3.2.2.1] at hl'
                  cases hl'
                  have hne2 :
                      (if st.previousArc = some (31 : Nat) then st.chapterNumber + 1
                        else 1) ≠ 2 :=
                    fun hq => hE ⟨rfl, hq⟩
                  rw [alookup_upsert, if_neg hne2] at he
                  exact hS ad ho e he
                · rw [hr3.2.2.2.1 31 (fun hq => h31 hq.symm)] at hl'
                  exact hS ad' hl' e he
              · intro a ha
                simp only [Option.some.injEq] at ha
                subst ha
                exact ⟨_, hr3.2.2.1, hchb.1, hr3.2.2.2.2⟩
    · rw [if_neg hc] at h
      simp only [Option.some.injEq] at h
      exact h ▸ ⟨hA, hC, hS, hP⟩

theorem linkFold_inv (f : Bool) (links : List (Str × Str)) (st st' : LinkState)
    (h : links.foldlM (linkStep f) st = some st') (hinv : LinkInv st) : LinkInv st' := by
  induction links generalizing st with
  | nil =>
    rw [List.foldlM_nil] at h
    cases h
    exact hinv
  | cons l rest ih =>
    rw [List.foldlM_cons] at h
    cases hstep : linkStep f st l with
    | none => rw [hstep] at h; simp at h
    | some st1 =>
      rw [hstep] at h
      simp only [Option.bind_eq_bind, Option.some_bind] at h
      exact ih st1 h (linkStep_inv f st st1 l hstep hinv)

theorem getIndex_inv (headings : List Str) (links : List (Str × Str)) (f : Bool)
    (idx : Index) (h : getIndex headings links f = some idx) :
    ArcsRanged idx ∧ ChaptersRanged idx ∧ SentinelSlot2 idx := by
  unfold getIndex at h
  dsimp only at h
  cases hf : links.foldlM (linkStep f)
      ⟨0, none, (headings.foldl headingStep (0, ([] : Str), ([] : Index))).2.2⟩ with
  | none => rw [hf] at h; simp at h
  | some stF =>
    rw [hf] at h
    simp only [Option.map_some', Option.some.injEq] at h
    have hh := headingFold_inv headings (0, ([] : Str), ([] : Index))
      ⟨rfl, rfl, fun a ad hl => by simp [alookup] at hl⟩
    obtain ⟨hh1, hh2, hh3⟩ := hh
    have hinv0 : LinkInv
        ⟨0, none, (headings.foldl headingStep (0, ([] : Str), ([] : Index))).2.2⟩ := by
      refine ⟨hh1, ?_, ?_, ?_⟩
      · intro a ad hl
        rw [hh3 a ad hl]
        rfl
      · intro ad hl e he
        rw [hh3 _ _ hl] at he
        simp [alookup] at he
      · intro a ha
        simp at ha
    have hres := linkFold_inv f links _ stF hf hinv0
    subst h
    exact ⟨hres.1, hres.2.1, hres.2.2.1⟩

theorem linkStep_reset (fa : Bool) (st : LinkState) (t href : Str) (st' : LinkState)
    (a : Nat) (h : linkStep fa st (t, href) = some st')
    (hpa : parsedArc (pyStrip t) = some a)
    (hE : ¬(a = 31 ∧ (if st.previousArc = some a then st.chapterNumber + 1 else 1) = 2)) :
    st'.chapterNumber = (if st.previousArc = some a then st.chapterNumber + 1 else 1) ∧
      st'.previousArc = some a := by
  unfold linkStep at h
  dsimp only at h
  cases hps : pyStrip t with
  | nil => rw [hps] at hpa; simp [parsedArc] at hpa
  | cons c ts =>
    rw [hps] at h hpa
    simp only [linkStepCore] at h
    have hc : charIn c (str "1234567890E") = true := by
      by_contra hcn
      simp only [parsedArc] at hpa
      rw [if_neg hcn] at hpa
      exact Option.noConfusion hpa
    rw [if_pos hc] at h
    rw [hpa] at h
    dsimp only at h
    rw [if_neg hE] at h
    dsimp only at h
    cases hru : resolveUrl href with
    | none => rw [hru] at h; exact absurd h (by simp)
    | some url =>
      rw [hru] at h
      dsimp only at h
      cases hs3 : setChapter st.index a
          (if st.previousArc = some a then st.chapterNumber + 1 else 1)
          ⟨if fa then c :: ts else normalizeTitle (c :: ts), url⟩ with
      | none => rw [hs3] at h; exact absurd h (by simp)
      | some idx3 =>
        rw [hs3] at h
        simp only [Option.some.injEq] at h
        subst h
        exact ⟨rfl, rfl⟩

theorem get?_of_ranged {β : Type} (l : List (Nat × β)) (s k : Nat) (v : β)
    (h : l.map Prod.fst = List.range' s l.length)
    (hl : alookup l k = some v) : l.get? (k - s) = some (k, v) := by
  induction l generalizing s with
  | nil => simp [alookup] at hl
  | cons p rest ih =>
    obtain ⟨k0, v0⟩ := p
    simp only [List.map_cons, List.length_cons, List.range'_succ, List.cons.injEq] at h
    obtain ⟨hk0, hrest⟩ := h
    subst hk0
    by_cases h0 : k0 = k
    · rw [show alookup ((k0, v0) :: rest) k = some v0 from by simp [alookup, h0]] at hl
      cases hl
      rw [← h0]
      simp
    · rw [show alookup ((k0, v0) :: rest) k = alookup rest k from by
        simp [alookup, h0]] at hl
      have hk : k0 + 1 ≤ k := by
        have hs : (alookup rest k).isSome := by rw [hl]; rfl
        rw [alookup_isSome_of_ranged rest (k0 + 1) k hrest] at hs
        omega
      have := ih (k0 + 1) hrest hl
      have hidx : k - k0 = (k - (k0 + 1)) + 1 := by omega
      rw [hidx]
      simpa using this

/-- Claim C2: whenever `get_index` completes, the arc keys of the
    resulting index are exactly `1, ..., N` in order (the sentinel
    arc 31, when present, is one of them), the chapter keys of every arc
    form the contiguous run `1, ..., M` in order, and an accepted link
    increments the chapter counter exactly when its arc number equals
    the previous link's arc number and resets it to 1 when it differs
    (stated away from the sentinel `E.2` injection point, which skips
    one extra number). -/
theorem c2_index_contiguity :
    (∀ headings links faithful idx, getIndex headings links faithful = some idx →
      (idx.map Prod.fst = List.range' 1 idx.length) ∧
      (∀ a ad, alookup idx a = some ad →
        ad.chapters.map Prod.fst = List.range' 1 ad.chapters.length)) ∧
    (∀ fa st t href st' a, linkStep fa st (t, href) = some st' →
      parsedArc (pyStrip t) = some a →
      ¬(a = 31 ∧ (if st.previousArc = some a then st.chapterNumber + 1 else 1) = 2) →
      st'.chapterNumber = (if st.previousArc = some a then st.chapterNumber + 1 else 1) ∧
        st'.previousArc = some a) := by
  constructor
  · intro headings links faithful idx h
    have hi := getIndex_inv headings links faithful idx h
    exact ⟨hi.1, hi.2.1⟩
  · intro fa st t href st' a h hpa hE
    exact linkStep_reset fa st t href st' a h hpa hE

def c2headings : List Str := [str "Aa", str "Bb"]

def c2links : List (Str × Str) :=
  [(str "1.1 x", str "http://h/a"), (str "1.2 y", str "h"),
   (str "2.1 z", str "http://h/b")]

def c2idx : Index := (getIndex c2headings c2links false).getD []

/-- Witness for C2 on a concrete synthetic contents page with two arcs
    and three chapter links. -/
theorem c2_witness :
    getIndex c2headings c2links false = some c2idx ∧
    c2idx.map Prod.fst = List.range' 1 c2idx.length ∧
    (∀ a ad, alookup c2idx a = some ad →
      ad.chapters.map Prod.fst = List.range' 1 ad.chapters.length) :=
  ⟨by decide, (c2_index_contiguity.1 c2headings c2links false c2idx (by decide)).1,
    (c2_index_contiguity.1 c2headings c2links false c2idx (by decide)).2⟩

/-- Claim C4: in every completed `get_index` run, slot 2 of the sentinel
    arc 31 can only hold the manually injected `E.2` entry; whenever the
    sentinel arc has at least two chapters, chapter number 2 is exactly
    the `E.2` entry and sits at position 2 of the arc's chapter list,
    and the chapter numbering of the arc is the contiguous run
    `1, ..., M` (so the entries after the injected one continue
    `3, 4, ...` undisturbed). -/
theorem c4_sentinel_injected_chapter :
    ∀ headings links faithful idx ad,
      getIndex headings links faithful = some idx →
      alookup idx 31 = some ad →
      (∀ e, alookup ad.chapters 2 = some e → e = e2entry) ∧
      (2 ≤ ad.chapters.length → alookup ad.chapters 2 = some e2entry ∧
        ad.chapters.get? 1 = some (2, e2entry)) ∧
      ad.chapters.map Prod.fst = List.range' 1 ad.chapters.length := by
  intro headings links faithful idx ad h hl
  obtain ⟨hA, hC, hS⟩ := getIndex_inv headings links faithful idx h
  have hr := hC 31 ad hl
  refine ⟨fun e he => hS ad hl e he, ?_, hr⟩
  intro h2
  have hs : (alookup ad.chapters 2).isSome := by
    rw [alookup_isSome_of_ranged ad.chapters 1 2 hr]
    omega
  cases ho : alookup ad.chapters 2 with
  | none => rw [ho] at hs; exact absurd hs (by simp)
  | some e =>
    have he2 : e = e2entry := hS ad hl e ho
    subst he2
    refine ⟨rfl, ?_⟩
    have := get?_of_ranged ad.chapters 1 2 e2entry hr ho
    simpa using this

def c4headings : List Str := List.replicate 31 (str "Aa")

def c4links : List (Str × Str) :=
  [(str "E.1 u", str "http://h/e1"), (str "E.3 v", str "http://h/e3")]

def c4idx : Index := (getIndex c4headings c4links false).getD []

def c4ad : ArcData := (alookup c4idx 31).getD ⟨[], []⟩

/-- Witness for C4 on a concrete synthetic contents page whose sentinel
    arc receives two links, triggering the `E.2` injection. -/
theorem c4_witness :
    getIndex c4headings c4links false = some c4idx ∧
    alookup c4idx 31 = some c4ad ∧
    2 ≤ c4ad.chapters.length ∧
    (alookup c4ad.chapters 2 = some e2entry ∧
      c4ad.chapters.get? 1 = some (2, e2entry)) ∧
    c4ad.chapters.map Prod.fst = List.range' 1 c4ad.chapters.length :=
  ⟨by decide, by decide, by decide,
    (c4_sentinel_injected_chapter c4headings c4links false c4idx c4ad (by decide)
      (by decide)).2.1 (by decide),
    (c4_sentinel_injected_chapter c4headings c4links false c4idx c4ad (by decide)
      (by decide)).2.2⟩

/-- Counterexample to claim C1: arc 19 chapter 9 has a
    `FormattingOverride` with alignment `'l'`, yet on a paragraph with
    inline CSS `text-align:right` the emitted control block contains the
    CSS-derived `\qr` and not the override's `\ql` — the inline style
    attribute is not ignored. -/
theorem c1_counterexample :
    alookup per_chapter_formatting 19 = some [(9, ⟨3, 28, str "l", 0, 360⟩)] ∧
    convertLine 19 9 (str "<p style=\x22text-align:right\x22>x</p>") =
      some (str "\x7b\\pard\\sl360\\slmult1\\qr\\f3\\fs28\\sa360 x\\par\x7d\n") ∧
    occurs (str "\\qr")
      (str "\x7b\\pard\\sl360\\slmult1\\qr\\f3\\fs28\\sa360 x\\par\x7d\n") = true ∧
    occurs (str "\\ql")
      (str "\x7b\\pard\\sl360\\slmult1\\qr\\f3\\fs28\\sa360 x\\par\x7d\n") = false :=
  ⟨by decide, by decide, by decide, by decide⟩

/-- Amended claim C1: when a `FormattingOverride` exists its typeface,
    font size and space-after are always applied, but inline CSS is not
    ignored: when the raw paragraph tag has a matching `style` attribute
    the alignment and padding come only from the parsed CSS and the
    override's alignment and indent arguments are irrelevant; the
    override's alignment and indent apply exactly when no style
    attribute matches. -/
theorem c1_override_css_resolution :
    (∀ input t fs al al' ind ind' sa cap, cssSearch input = some cap →
      rtPrefixOf input t fs al ind sa = rtPrefixOf input t fs al' ind' sa) ∧
    (∀ input t fs al ind sa cap d, cssSearch input = some cap →
      cssParse cap = some d →
      rtPrefixOf input t fs al ind sa =
        some (linePre ++ cssAlign d ++ cssPad d ++ fontFlags t fs sa)) ∧
    (∀ input t fs al ind sa, cssSearch input = none →
      rtPrefixOf input t fs al ind sa =
        some (linePre ++ str "\\q" ++ al
          ++ pyRepeat (str "\\fi" ++ natStr typesettingIndent) ind
          ++ fontFlags t fs sa)) := by
  refine ⟨?_, ?_, ?_⟩
  · intro input t fs al al' ind ind' sa cap h
    unfold rtPrefixOf
    rw [h]
  · intro input t fs al ind sa cap d h hd
    unfold rtPrefixOf
    rw [h]
    dsimp only
    rw [hd]
    rfl
  · intro input t fs al ind sa h
    unfold rtPrefixOf
    rw [h]

/-- Witness for the amended C1 at the counterexample's paragraph and the
    arc 19 chapter 9 override values. -/
theorem c1_witness :
    cssSearch (str "<p style=\x22text-align:right\x22>x</p>") =
      some (str "text-align:right") ∧
    cssParse (str "text-align:right") = some [(str "text-align", str "right")] ∧
    rtPrefixOf (str "<p style=\x22text-align:right\x22>x</p>") 3 28 (str "l") 0 360 =
      some (linePre ++ cssAlign [(str "text-align", str "right")]
        ++ cssPad [(str "text-align", str "right")] ++ fontFlags 3 28 360) :=
  ⟨by decide, by decide,
    c1_override_css_resolution.2.1 (str "<p style=\x22text-align:right\x22>x</p>")
      3 28 (str "l") 0 360 (str "text-align:right")
      [(str "text-align", str "right")] (by decide) (by decide)⟩

/-- Inductive closure of the claim C6 boilerplate set: `"nextchapter"`,
    `"lastchapter"`, and every concatenation of those two strings in any
    order and multiplicity. -/
inductive NavConcat : Str → Prop
  | next : NavConcat (str "nextchapter")
  | last : NavConcat (str "lastchapter")
  | app : ∀ a b, NavConcat a → NavConcat b → NavConcat (a ++ b)

/-- Counterexample to claim C6: the input `Next ChapterNext Chapter`
    normalizes to `nextchapternextchapter`, a concatenation of
    `nextchapter` with itself, yet the transcoder does not return the
    empty string — the source compares only against a fixed six-element
    list. -/
theorem c6_counterexample :
    NavConcat (normalizeLetters (substitutedBody (str "Next ChapterNext Chapter"))) ∧
    (normalizeLetters (substitutedBody (str "Next ChapterNext Chapter")) ∈
      navBoilerplateList → False) ∧
    richTextifyDefault (str "Next ChapterNext Chapter") ≠ some [] := by
  refine ⟨?_, by decide, by decide⟩
  have h : normalizeLetters (substitutedBody (str "Next ChapterNext Chapter")) =
      str "nextchapter" ++ str "nextchapter" := by decide
  rw [h]
  exact NavConcat.app _ _ NavConcat.next NavConcat.next

/-- Amended claim C6: for every input whose fully substituted body,
    lower-cased and stripped of non-letters, equals one of the six fixed
    strings of lines 433-438 (the two navigation phrases, their two
    mixed concatenations, and the two mixed concatenations followed by
    `line`), `rich_textify` returns the empty string, for any formatting
    arguments. -/
theorem c6_boilerplate_suppression :
    ∀ input t fs al ind sa,
      normalizeLetters (substitutedBody input) ∈ navBoilerplateList →
      richTextify input t fs al ind sa = some [] := by
  intro input t fs al ind sa h
  have hb : isNavBoilerplate (substitutedBody input) = true := by
    unfold isNavBoilerplate
    exact decide_eq_true h
  unfold richTextify
  dsimp only
  rw [if_pos hb]

/-- Witness for the amended C6 at the single-phrase input
    `Last Chapter`. -/
theorem c6_witness :
    normalizeLetters (substitutedBody (str "Last Chapter")) ∈ navBoilerplateList ∧
    richTextify (str "Last Chapter") 0 0 (str "j") 1 0 = some [] :=
  ⟨by decide,
    c6_boilerplate_suppression (str "Last Chapter") 0 0 (str "j") 1 0 (by decide)⟩

/-- Counterexample to claim C9: on `<p></p>` the substituted body is
    empty and not boilerplate, and `rich_textify` fails (the source
    raises `IndexError` at `output_string[0]`, line 446) instead of
    being total. -/
theorem c9_counterexample :
    substitutedBody (str "<p></p>") = [] ∧
    isNavBoilerplate (substitutedBody (str "<p></p>")) = false ∧
    richTextifyDefault (str "<p></p>") = none :=
  ⟨by decide, by decide, by decide⟩

/-- Amended claim C9: whenever the leading-space step is reached with a
    nonempty body it yields a body starting with a control escape or a
    prepended space, and every non-boilerplate success of `rich_textify`
    factors through it; but `rich_textify` is not total: a paragraph
    whose content is empty after all substitutions and is not recognized
    boilerplate (such as `<p></p>`) makes it fail. -/
theorem c9_leading_space :
    (∀ b body, spacedBody b = some body →
      body.head? = some '\\' ∨ body.head? = some ' ') ∧
    (∀ input t fs al ind sa out, richTextify input t fs al ind sa = some out →
      out = [] ∨ ∃ pre body, spacedBody (substitutedBody input) = some body ∧
        rtPrefixOf input t fs al ind sa = some pre ∧ out = pre ++ body ++ lineSuf) ∧
    (∀ input t fs al ind sa, substitutedBody input = [] →
      isNavBoilerplate (substitutedBody input) = false →
      richTextify input t fs al ind sa = none) := by
  refine ⟨?_, ?_, ?_⟩
  · intro b body h
    cases b with
    | nil => simp [spacedBody] at h
    | cons c rest =>
      simp only [spacedBody, Option.some.injEq] at h
      subst h
      by_cases hc : c = '\\'
      · subst hc; simp
      · right; simp [hc]
  · intro input t fs al ind sa out h
    unfold richTextify at h
    dsimp only at h
    by_cases hb : isNavBoilerplate (substitutedBody input) = true
    · rw [if_pos hb] at h
      simp only [Option.some.injEq] at h
      exact Or.inl h.symm
    · rw [if_neg hb] at h
      cases hsb : spacedBody (substitutedBody input) with
      | none => rw [hsb] at h; simp at h
      | some body =>
        cases hpre : rtPrefixOf input t fs al ind sa with
        | none => rw [hsb, hpre] at h; simp at h
        | some pre =>
          rw [hsb, hpre] at h
          simp only [Option.some.injEq] at h
          exact Or.inr ⟨pre, body, rfl, rfl, h.symm⟩
  · intro input t fs al ind sa h hb
    unfold richTextify
    dsimp only
    rw [if_neg (by rw [hb]; exact Bool.false_ne_true)]
    rw [h]
    rfl

/-- Witness for the amended C9: a nonempty body gets the leading space. -/
theorem c9_witness :
    spacedBody (str "x") = some (str " x") ∧
    ((str " x").head? = some '\\' ∨ (str " x").head? = some ' ') :=
  ⟨by decide, c9_leading_space.1 (str "x") (str " x") (by decide)⟩

theorem splitAllChar_of_no_occurrence (c : Char) (s : Str)
    (h : charIn c s = false) : splitAllChar c s = [s] := by
  induction s with
  | nil => rfl
  | cons d rest ih =>
    simp only [charIn, List.any_cons, Bool.or_eq_false_iff] at h
    have ih' := ih (by simp [charIn, h.2])
    simp only [splitAllChar]
    rw [if_neg (by simp [h.1]), ih']

theorem foldlM_none_of_mem {α β : Type} (f : β → α → Option β) (l : List α) (x : α)
    (hx : x ∈ l) (hf : ∀ b, f b x = none) : ∀ init, l.foldlM f init = none := by
  induction l with
  | nil => simp at hx
  | cons y rest ih =>
    intro init
    rw [List.foldlM_cons]
    rcases List.mem_cons.mp hx with h | h
    · subst h
      rw [hf init]
      rfl
    · cases hy : f init y with
      | none => rfl
      | some b =>
        simp only [Option.bind_eq_bind, Option.some_bind]
        exact ih h b

/-- Counterexample to claim C8: `style="foo"` is found by the CSS
    search, its lone colon-free declaration makes the parser fail
    (`css_list[1]` raises `IndexError` at line 456), and the whole
    paragraph conversion errors out instead of keeping defaults. -/
theorem c8_counterexample :
    cssSearch (str "<p style=\x22foo\x22>x</p>") = some (str "foo") ∧
    cssParse (str "foo") = none ∧
    richTextifyDefault (str "<p style=\x22foo\x22>x</p>") = none :=
  ⟨by decide, by decide, by decide⟩

/-- Amended claim C8: when every nonempty declaration of the style
    attribute contains a colon the parser succeeds, and only the
    recognized keys `text-align` and `padding-left` influence the
    emitted prefix; but a nonempty colon-free declaration (such as
    `style="foo"`) raises an error instead of being ignored. -/
theorem c8_css_declaration_handling :
    (∀ cap d input t fs al ind sa, cssParse cap = some d →
      cssSearch input = some cap →
      rtPrefixOf input t fs al ind sa =
        some (linePre ++ cssAlign d ++ cssPad d ++ fontFlags t fs sa)) ∧
    (∀ d d', alookup d (str "text-align") = alookup d' (str "text-align") →
      (alookup d (str "padding-left")).isSome =
        (alookup d' (str "padding-left")).isSome →
      cssAlign d = cssAlign d' ∧ cssPad d = cssPad d') ∧
    (∀ cap seg, seg ∈ splitAllChar ';' cap → seg ≠ [] →
      charIn ':' seg = false → cssParse cap = none) := by
  refine ⟨?_, ?_, ?_⟩
  · intro cap d input t fs al ind sa hd h
    unfold rtPrefixOf
    rw [h]
    dsimp only
    rw [hd]
    rfl
  · intro d d' h1 h2
    constructor
    · unfold cssAlign
      rw [h1]
    · unfold cssPad
      rw [h2]
  · intro cap seg hmem hne hcolon
    unfold cssParse
    refine foldlM_none_of_mem cssParseStep _ seg hmem ?_ []
    intro b
    unfold cssParseStep
    rw [if_neg (by simp [List.isEmpty_iff, hne]),
      splitAllChar_of_no_occurrence ':' seg hcolon]

/-- Witness for the amended C8: a colon-free declaration fails, an
    unrecognized keyed declaration parses and leaves the prefix at
    defaults. -/
theorem c8_witness :
    (str "foo" ∈ splitAllChar ';' (str "foo") ∧ str "foo" ≠ [] ∧
      charIn ':' (str "foo") = false ∧ cssParse (str "foo") = none) ∧
    (cssParse (str "bar:baz") = some [(str "bar", str "baz")] ∧
      cssSearch (str "<p style=\x22bar:baz\x22>x</p>") = some (str "bar:baz") ∧
      rtPrefixOf (str "<p style=\x22bar:baz\x22>x</p>") 0 0 (str "j") 1 0 =
        some (linePre ++ cssAlign [(str "bar", str "baz")]
          ++ cssPad [(str "bar", str "baz")] ++ fontFlags 0 0 0)) :=
  ⟨⟨by decide, by decide, by decide,
      c8_css_declaration_handling.2.2 (str "foo") (str "foo") (by decide) (by decide)
        (by decide)⟩,
    ⟨by decide, by decide,
      c8_css_declaration_handling.1 (str "bar:baz") [(str "bar", str "baz")]
        (str "<p style=\x22bar:baz\x22>x</p>") 0 0 (str "j") 1 0 (by decide)
        (by decide)⟩⟩

/-- Abstract per-chapter effect that fails on arc 1 chapter 1 with the
    missing-static-asset error of `generate_cover_page` (line 385). -/
def c3fail : Nat → Nat → Nat → Except Str Unit := fun a c _ =>
  if a = 1 ∧ c = 1 then Except.error (str "FileNotFoundError: spider_eyes.txt")
  else Except.ok ()

/-- Counterexample to claim C3: with two selected arcs and a fatal
    cover-asset failure on the very first chapter, the batch stops at
    that chapter; neither the rest of arc 1 nor arc 2 is ever
    processed — the uncaught exception aborts the whole run, not just
    the chapter. -/
theorem c3_counterexample :
    runBatch c3fail [(1, [1, 2], [1, 2]), (2, [1], [1])] =
      ([(1, 1)], some (str "FileNotFoundError: spider_eyes.txt")) ∧
    (1, 2) ∉ (runBatch c3fail [(1, [1, 2], [1, 2]), (2, [1], [1])]).1 ∧
    (2, 1) ∉ (runBatch c3fail [(1, [1, 2], [1, 2]), (2, [1], [1])]).1 :=
  ⟨by decide, by decide, by decide⟩

/-- Amended claim C3: `main` has no exception handling, so the first
    fetch/write/asset failure ends the run: the chapters processed are
    exactly those before the failing one (restricted to existing keys)
    plus the failing chapter itself, and the remaining arcs are never
    entered. -/
theorem c3_failure_aborts_batch :
    (∀ (getCh : Nat → Nat → Nat → Except Str Unit) (arcN : Nat)
      (keys sel pre post : List Nat) (c : Nat) (e : Str)
      (done : List (Nat × Nat)),
      (∀ x ∈ pre, keys.contains x = true →
        getCh arcN x (chapterPosition sel x) = Except.ok ()) →
      keys.contains c = true →
      getCh arcN c (chapterPosition sel c) = Except.error e →
      runChaptersAux getCh arcN keys sel done (pre ++ c :: post) =
        (done ++ (pre.filter (fun x => keys.contains x)).map (fun x => (arcN, x))
          ++ [(arcN, c)], some e)) ∧
    (∀ getCh done a keys sel rest d e,
      runChaptersAux getCh a keys sel done sel = (d, some e) →
      runBatchAux getCh done ((a, keys, sel) :: rest) = (d, some e)) := by
  constructor
  · intro getCh arcN keys sel pre post c e done hok hc herr
    induction pre generalizing done with
    | nil =>
      have hm : c ∈ keys := by simpa using hc
      simp [runChaptersAux, hm, herr]
    | cons x pre' ih =>
      by_cases hx : keys.contains x = true
      · have hokx := hok x (by simp) hx
        have hm : x ∈ keys := by simpa using hx
        rw [show (x :: pre') ++ c :: post = x :: (pre' ++ c :: post) from rfl]
        rw [show runChaptersAux getCh arcN keys sel done (x :: (pre' ++ c :: post)) =
            runChaptersAux getCh arcN keys sel (done ++ [(arcN, x)])
              (pre' ++ c :: post) from by simp [runChaptersAux, hm, hokx]]
        rw [ih (done ++ [(arcN, x)]) (fun y hy hky => hok y (by simp [hy]) hky)]
        simp [List.filter_cons, hx, hm]
      · have hxf : keys.contains x = false := by
          cases hxx : keys.contains x
          · rfl
          · exact absurd hxx hx
        have hm : x ∉ keys := by simpa using hxf
        rw [show (x :: pre') ++ c :: post = x :: (pre' ++ c :: post) from rfl]
        rw [show runChaptersAux getCh arcN keys sel done (x :: (pre' ++ c :: post)) =
            runChaptersAux getCh arcN keys sel done (pre' ++ c :: post) from by
          simp [runChaptersAux, hm]]
        rw [ih done (fun y hy hky => hok y (by simp [hy]) hky)]
        simp [List.filter_cons, hxf, hm]
  · intro getCh done a keys sel rest d e h
    simp only [runBatchAux, h]

/-- Witness for the amended C3: a first-chapter failure stops the arc
    loop immediately. -/
theorem c3_witness :
    ([1, 2] : List Nat).contains 1 = true ∧
    c3fail 1 1 (chapterPosition [1, 2] 1) =
      Except.error (str "FileNotFoundError: spider_eyes.txt") ∧
    runChaptersAux c3fail 1 [1, 2] [1, 2] [] ([] ++ 1 :: [2]) =
      ([] ++ (([] : List Nat).filter (fun x => ([1, 2] : List Nat).contains x)).map
        (fun x => ((1 : Nat), x)) ++ [(1, 1)],
        some (str "FileNotFoundError: spider_eyes.txt")) :=
  ⟨by decide, by rfl,
    c3_failure_aborts_batch.1 c3fail 1 [1, 2] [1, 2] [] [2] 1
      (str "FileNotFoundError: spider_eyes.txt") []
      (fun x hx => absurd hx (List.not_mem_nil x)) (by decide) (by rfl)⟩

/-- Counterexample to claim C7: a scheme-less href gets only the literal
    prefix `https://` — no default host is supplied, so a root-relative
    href yields a URL with an empty authority; and an href with a port
    reaches the IDNA branch, which concatenates `bytes` with `str` and
    fails instead of escaping. -/
theorem c7_counterexample :
    resolveUrl (str "/2013/11/05/x/") = some (str "https:///2013/11/05/x/") ∧
    (urlsplitM (str "https:///2013/11/05/x/")).map SplitUrl.netloc = some [] ∧
    resolveUrl (str "http://h:80/x") = none :=
  ⟨by decide, by decide, by decide⟩

/-- Amended claim C7: an href whose first four characters are `http` is
    split and percent-escaped as is, provided its authority carries no
    port (the port/IDNA branch fails); any other href first gets the
    literal scheme prefix `https://` — no default host is added.  The
    stored URL is the reassembly of the split with percent-escaped path,
    query and fragment. -/
theorem c7_url_resolution :
    (∀ href, href.take 4 = str "http" → resolveUrl href = iriToUri href) ∧
    (∀ href, href.take 4 ≠ str "http" →
      resolveUrl href = iriToUri (str "https://" ++ href)) ∧
    (∀ iri u, urlsplitM iri = some u → charIn ':' u.netloc = false →
      iriToUri iri = some (urlunsplit ⟨u.scheme, u.netloc, pyQuote u.path,
        pyQuote u.query, pyQuote u.fragment⟩)) ∧
    (∀ iri u, urlsplitM iri = some u → charIn ':' u.netloc = true →
      iriToUri iri = none) ∧
    getIndex [str "Aa"] [(str "1.1 t", str "parahumans.wordpress.com/x")] false =
      some [(1, ⟨str "Aa",
        [(1, ⟨str "1.1 t", str "https://parahumans.wordpress.com/x"⟩)]⟩)] := by
  refine ⟨?_, ?_, ?_, ?_, by decide⟩
  · intro href h
    unfold resolveUrl
    rw [if_pos h]
  · intro href h
    unfold resolveUrl
    rw [if_neg h]
  · intro iri u hu hc
    unfold iriToUri
    rw [hu]
    simp only [Option.bind_eq_bind, Option.some_bind]
    rw [if_neg (by rw [hc]; exact Bool.false_ne_true)]
  · intro iri u hu hc
    unfold iriToUri
    rw [hu]
    simp only [Option.bind_eq_bind, Option.some_bind]
    rw [if_pos hc]

/-- Witness for the amended C7 on a scheme-bearing and a scheme-less
    href. -/
theorem c7_witness :
    ((str "http://h/a b").take 4 = str "http" ∧
      resolveUrl (str "http://h/a b") = iriToUri (str "http://h/a b") ∧
      iriToUri (str "http://h/a b") = some (str "http://h/a%20b")) ∧
    ((str "x").take 4 ≠ str "http" ∧
      resolveUrl (str "x") = iriToUri (str "https://" ++ str "x")) :=
  ⟨⟨by decide, c7_url_resolution.1 (str "http://h/a b") (by decide), by decide⟩,
    ⟨by decide, c7_url_resolution.2.1 (str "x") (by decide)⟩⟩

/-- The three chapter jobs of a synthetic 3-chapter arc, with position
    signals first / middle / last. -/
def c5jobs : List ChapterJob :=
  [⟨1, str "5.1", 5, str "Arc Five: Trial", 1, [str "<p>Alpha one</p>"]⟩,
   ⟨2, str "5.2", 5, str "Arc Five: Trial", 0, [str "<p>Beta two</p>"]⟩,
   ⟨3, str "5.3", 5, str "Arc Five: Trial", 2, [str "<p>Gamma three</p>"]⟩]

/-- The file produced by processing `c5jobs` in joined mode (cover art
    and inner-cover assets are one-line stand-ins). -/
def c5file : Str := (runJoined [str "ART"] [str "inner"] c5jobs).getD []

/-- Claim C5: for a 3-chapter arc processed in joined mode with
    positions [first, middle, last], the produced file contains exactly
    one file header (`{\rtf1`), one cover page (its unique author line),
    three per-chapter section blocks (their `{\headerl` header writes)
    and one end-of-arc marker, in that order: header before cover,
    cover before the first section, the three bodies in order, and the
    end-of-arc marker only after the last chapter's content. -/
theorem c5_joined_arc_structure :
    (runJoined [str "ART"] [str "inner"] c5jobs).isSome = true ∧
    countOcc (str "\x7b\\rtf1") c5file = 1 ∧
    countOcc (str "JOHN McCRAE") c5file = 1 ∧
    countOcc (str "\x7b\\headerl") c5file = 3 ∧
    countOcc (str "END OF ") c5file = 1 ∧
    precedes (str "\x7b\\rtf1") (str "JOHN McCRAE") c5file = true ∧
    precedes (str "JOHN McCRAE") (str "\x7b\\headerl") c5file = true ∧
    precedes (str "\x7b\\headerl") (str "Alpha one") c5file = true ∧
    precedes (str "Alpha one") (str "Beta two") c5file = true ∧
    precedes (str "Beta two") (str "Gamma three") c5file = true ∧
    precedes (str "Gamma three") (str "END OF ") c5file = true :=
  ⟨by decide, by decide, by decide, by decide, by decide, by decide, by decide,
    by decide, by decide, by decide, by decide⟩

theorem findSplit_none_replaceAlt (pats : List Str) (rep : Str) (s : Str)
    (h : findSplit pats s = none) : ∀ fuel, replaceAltFuel pats rep fuel s = s := by
  intro fuel
  cases fuel with
  | zero => rfl
  | succ f => simp [replaceAltFuel, h]

theorem isPre_append (p : Str) : ∀ s, isPre p s = true → s = p ++ s.drop p.length := by
  induction p with
  | nil => intro s _; simp
  | cons a as ih =>
    intro s h
    cases s with
    | nil => simp [isPre] at h
    | cons b bs =>
      simp only [isPre, Bool.and_eq_true, beq_iff_eq] at h
      obtain ⟨hab, hpre⟩ := h
      subst hab
      simp only [List.length_cons, List.drop_succ_cons, List.cons_append,
        List.cons.injEq, true_and]
      exact ih bs hpre

theorem findSplit_some (pats : List Str) : ∀ (s : Str) (g : Str × Str × Str),
    findSplit pats s = some g → g.2.1 ∈ pats ∧ s = g.1 ++ g.2.1 ++ g.2.2 := by
  intro s
  induction s with
  | nil =>
    intro g h
    simp only [findSplit] at h
    cases hf : pats.find? (fun p => isPre p []) with
    | none => rw [hf] at h; exact absurd h (by simp)
    | some p =>
      rw [hf] at h
      simp only [Option.some.injEq] at h
      subst h
      have hp := List.find?_some hf
      have hmem := List.mem_of_find?_eq_some hf
      have hpn : p = [] := by
        cases p with
        | nil => rfl
        | cons a as => simp [isPre] at hp
      subst hpn
      exact ⟨hmem, rfl⟩
  | cons c rest ih =>
    intro g h
    simp only [findSplit] at h
    cases hf : pats.find? (fun p => isPre p (c :: rest)) with
    | some p =>
      rw [hf] at h
      simp only [Option.some.injEq] at h
      subst h
      have hp := List.find?_some hf
      have hmem := List.mem_of_find?_eq_some hf
      refine ⟨hmem, ?_⟩
      have := isPre_append p (c :: rest) hp
      simpa using this
    | none =>
      rw [hf] at h
      cases hrec : findSplit pats rest with
      | none => rw [hrec] at h; exact absurd h (by simp)
      | some g' =>
        rw [hrec] at h
        simp only [Option.some.injEq] at h
        subst h
        obtain ⟨hm, he⟩ := ih g' hrec
        refine ⟨hm, ?_⟩
        simp only [List.cons_append]
        rw [he]

/-- A numeric character reference literal `&#m;`. -/
def refLit (m : Str) : Str := '&' :: '#' :: (m ++ [';'])

theorem refLit_eq (m : Str) : str "&#" ++ m ++ str ";" = refLit m := by
  have h1 : str "&#" = ['&', '#'] := rfl
  have h2 : str ";" = [';'] := rfl
  rw [h1, h2]
  simp [refLit]

theorem isPyDigit_spec (c : Char) (h : isPyDigit c = true) :
    c ≠ ';' ∧ c ≠ '&' ∧ c ≠ '#' ∧ c ≠ '\n' := by
  have hl : str "1234567890" = ['1', '2', '3', '4', '5', '6', '7', '8', '9', '0'] := rfl
  unfold isPyDigit charIn at h
  rw [hl] at h
  simp only [List.any_cons, List.any_nil, Bool.or_eq_true, beq_iff_eq,
    Bool.or_eq_false_iff] at h
  rcases h with rfl | rfl | rfl | rfl | rfl | rfl | rfl | rfl | rfl | rfl | h
  all_goals first
    | exact ⟨by decide, by decide, by decide, by decide⟩
    | simp at h

theorem digits_semi (m : Str) (hm : m.all isPyDigit = true) :
    ∀ d t, d.all isPyDigit = true → d ++ [';'] = m ++ ';' :: t → m = d ∧ t = [] := by
  induction m with
  | nil =>
    intro d t hd h
    cases d with
    | nil =>
      simp only [List.nil_append] at h
      exact ⟨rfl, by simpa using h.symm⟩
    | cons b bs =>
      simp only [List.cons_append, List.nil_append, List.cons.injEq] at h
      have hb : isPyDigit b = true := by
        simp only [List.all_cons, Bool.and_eq_true] at hd
        exact hd.1
      rw [h.1] at hb
      exact absurd hb (by decide)
  | cons a as ih =>
    intro d t hd h
    have ha : isPyDigit a = true := by
      simp only [List.all_cons, Bool.and_eq_true] at hm
      exact hm.1
    cases d with
    | nil =>
      simp only [List.nil_append, List.cons_append, List.cons.injEq] at h
      rw [← h.1] at ha
      exact absurd ha (by decide)
    | cons b bs =>
      simp only [List.cons_append, List.cons.injEq] at h
      obtain ⟨hab, hrest⟩ := h
      have hm' : as.all isPyDigit = true := by
        simp only [List.all_cons, Bool.and_eq_true] at hm
        exact hm.2
      have hd' : bs.all isPyDigit = true := by
        simp only [List.all_cons, Bool.and_eq_true] at hd
        exact hd.2
      obtain ⟨h1, h2⟩ := ih hm' bs t hd' hrest
      exact ⟨by rw [hab, h1], h2⟩

theorem ref_occurs_eq (m d : Str) (hm : m.all isPyDigit = true)
    (hd : d.all isPyDigit = true)
    (h : occurs (refLit m) (refLit d) = true) : m = d := by
  unfold occurs occursAny at h
  cases hf : findSplit [refLit m] (refLit d) with
  | none => rw [hf] at h; simp at h
  | some g =>
    obtain ⟨hmem, heq⟩ := findSplit_some [refLit m] (refLit d) g hf
    simp only [List.mem_singleton] at hmem
    rw [hmem] at heq
    cases hg1 : g.1 with
    | nil =>
      rw [hg1] at heq
      simp only [List.nil_append, refLit, List.cons_append, List.cons.injEq,
        true_and] at heq
      have := digits_semi m hm d g.2.2 hd (by
        rw [heq]
        simp [List.append_assoc])
      exact this.1
    | cons x a' =>
      rw [hg1] at heq
      simp only [refLit, List.cons_append, List.cons.injEq] at heq
      obtain ⟨hx, htail⟩ := heq
      have hamp : '&' ∈ ('#' :: (d ++ [';'])) := by
        rw [htail]
        refine List.mem_append.mpr (Or.inl ?_)
        refine List.mem_append.mpr (Or.inr ?_)
        simp [refLit]
      simp only [List.mem_cons, List.mem_append, List.mem_singleton] at hamp
      rcases hamp with h1 | h2 | h3
      · exact absurd h1 (by decide)
      · have := List.all_eq_true.mp hd '&' h2
        exact absurd this (by decide)
      · exact absurd h3 (by decide)

/-- Decompose a character-substitution pattern `&#m;` into its numeral. -/
def refNumOf (p : Str) : Option Str :=
  match p with
  | a :: b :: rest =>
    if a = '&' ∧ b = '#' ∧ rest.dropLast ≠ [] ∧ rest.getLast? = some ';' ∧
        rest.dropLast.all isPyDigit
    then some rest.dropLast else none
  | _ => none

theorem refNumOf_some (p m : Str) (h : refNumOf p = some m) :
    p = refLit m ∧ m.all isPyDigit = true ∧ m ≠ [] := by
  match p with
  | [] => simp [refNumOf] at h
  | [x] => simp [refNumOf] at h
  | a :: b :: rest =>
    simp only [refNumOf] at h
    split at h
    all_goals rename_i hcond
    · obtain ⟨ha, hb, h1, h2, h3⟩ := hcond
      subst ha
      subst hb
      simp only [Option.some.injEq] at h
      subst h
      have hrest : rest ≠ [] := by
        intro hr
        rw [hr] at h2
        simp at h2
      have hsplit : rest.dropLast ++ [rest.getLast hrest] = rest :=
        List.dropLast_append_getLast hrest
      have hlast : rest.getLast hrest = ';' := by
        have hg := List.getLast?_eq_getLast rest hrest
        rw [hg] at h2
        exact Option.some_inj.mp h2
      have hr2 : rest = rest.dropLast ++ [';'] := by
        conv_lhs => rw [← hsplit]
        rw [hlast]
      refine ⟨?_, h3, h1⟩
      unfold refLit
      conv_lhs => rw [hr2]
    · exact absurd h (by simp)

theorem foldl_replace_id (l : List (Str × Str)) (s : Str)
    (h : ∀ pr ∈ l, occurs pr.1 s = false) :
    l.foldl (fun t pr => replaceAll pr.1 pr.2 t) s = s := by
  induction l with
  | nil => rfl
  | cons pr rest ih =>
    rw [List.foldl_cons]
    have h1 : replaceAll pr.1 pr.2 s = s := by
      have ho := h pr (by simp)
      unfold occurs occursAny at ho
      cases hf : findSplit [pr.1] s with
      | some g => rw [hf] at ho; simp at ho
      | none =>
        unfold replaceAll replaceAlt
        exact findSplit_none_replaceAlt _ _ _ hf _
    rw [h1]
    exact ih (fun q hq => h q (by simp [hq]))

theorem table_pats_shape :
    character_substitutions.all (fun q => (refNumOf q.1).isSome) = true := by decide

theorem table_not_occurs (d : Str) (hd : d.all isPyDigit = true)
    (hnot : refLit d ∉ character_substitutions.map Prod.fst) :
    ∀ pr ∈ character_substitutions, occurs pr.1 (refLit d) = false := by
  intro pr hpr
  cases hm : refNumOf pr.1 with
  | none =>
    have hsome := List.all_eq_true.mp table_pats_shape pr hpr
    rw [hm] at hsome
    simp at hsome
  | some m =>
    obtain ⟨hp, hmd, _⟩ := refNumOf_some pr.1 m hm
    cases ho : occurs pr.1 (refLit d) with
    | false => rfl
    | true =>
      rw [hp] at ho
      have hmdq := ref_occurs_eq m d hmd hd ho
      subst hmdq
      exact absurd (by rw [← hp]; exact List.mem_map_of_mem Prod.fst hpr) hnot

theorem findLitNoNL_digits (d' : Str) (hd : d'.all isPyDigit = true) :
    findLitNoNL (str ";") (d' ++ [';']) = some (d', []) := by
  induction d' with
  | nil => decide
  | cons e es ih =>
    have he : isPyDigit e = true := by
      simp only [List.all_cons, Bool.and_eq_true] at hd
      exact hd.1
    have hes : es.all isPyDigit = true := by
      simp only [List.all_cons, Bool.and_eq_true] at hd
      exact hd.2
    obtain ⟨hsemi, _, _, hnl⟩ := isPyDigit_spec e he
    have hne : (';' == e) = false := by
      rw [beq_eq_false_iff_ne]
      exact fun hq => hsemi hq.symm
    have hpre : isPre (str ";") (e :: (es ++ [';'])) = false := by
      show ((';' == e) && isPre [] (es ++ [';'])) = false
      rw [hne]
      rfl
    simp only [List.cons_append, findLitNoNL, List.append_eq]
    rw [hpre]
    simp only [Bool.false_eq_true, if_false]
    rw [if_neg (by simp [hnl])]
    rw [ih hes]
    rfl

theorem findRefsFuel_nil : ∀ f, findRefsFuel f [] = [] := by
  intro f
  cases f <;> rfl

theorem findRefs_refLit (d : Str) (hd : d.all isPyDigit = true) (hdne : d ≠ []) :
    findRefs (refLit d) = [d] := by
  cases d with
  | nil => exact absurd rfl hdne
  | cons d0 d' =>
    have h0 : isPyDigit d0 = true := by
      simp only [List.all_cons, Bool.and_eq_true] at hd
      exact hd.1
    have h' : d'.all isPyDigit = true := by
      simp only [List.all_cons, Bool.and_eq_true] at hd
      exact hd.2
    obtain ⟨_, _, _, hnl⟩ := isPyDigit_spec d0 h0
    have hpre : isPre (str "&#") ('&' :: '#' :: (d0 :: (d' ++ [';']))) = true := rfl
    unfold findRefs
    show findRefsFuel ('&' :: '#' :: ((d0 :: d') ++ [';'])).length
      ('&' :: '#' :: ((d0 :: d') ++ [';'])) = [d0 :: d']
    have hlen : ('&' :: '#' :: ((d0 :: d') ++ [';'])).length = (d'.length + 3) + 1 := by
      simp
    rw [hlen]
    simp only [List.cons_append, findRefsFuel]
    rw [hpre]
    simp only [if_true, List.drop_succ_cons, List.drop_zero]
    rw [if_neg (by simp [hnl])]
    rw [findLitNoNL_digits d' h']
    simp only [findRefsFuel_nil]

/-- Claim C10: every entry of the character-substitution table maps its
    reference to a replacement containing no residual `&#...;` pattern
    (the whole pass sends each table reference to exactly its
    replacement, and no replacement contains a numeric reference); and
    every numeric character reference not in the table passes through
    the substitution pass unchanged while being reported by the
    unprocessed-code diagnostic scan. -/
theorem c10_character_map_roundtrip :
    (∀ pr ∈ character_substitutions,
      applyCharSubs pr.1 = pr.2 ∧ findRefs pr.2 = []) ∧
    (∀ d, d ≠ [] → d.all isPyDigit = true →
      (str "&#" ++ d ++ str ";") ∉ character_substitutions.map Prod.fst →
      applyCharSubs (str "&#" ++ d ++ str ";") = str "&#" ++ d ++ str ";" ∧
      findRefs (str "&#" ++ d ++ str ";") = [d]) := by
  constructor
  · decide
  · intro d hdne hd hnot
    rw [refLit_eq d] at hnot ⊢
    constructor
    · unfold applyCharSubs
      exact foldl_replace_id character_substitutions (refLit d)
        (table_not_occurs d hd hnot)
    · exact findRefs_refLit d hd hdne

/-- Witness for C10 at the untabulated reference `&#65;`. -/
theorem c10_witness :
    (str "65" ≠ [] ∧ (str "65").all isPyDigit = true ∧
      (str "&#" ++ str "65" ++ str ";") ∉ character_substitutions.map Prod.fst) ∧
    (applyCharSubs (str "&#" ++ str "65" ++ str ";") = str "&#" ++ str "65" ++ str ";" ∧
      findRefs (str "&#" ++ str "65" ++ str ";") = [str "65"]) :=
  ⟨⟨by decide, by decide, by decide⟩,
    c10_character_map_roundtrip.2 (str "65") (by decide) (by decide) (by decide)⟩
